/-
Verification of the karna engine's DuckDB driver layer against its
specification: value codec, row/query materialization, identifier
sanitizer, startup directory scan, drop_table, DSN builder and the
ingestion SQL generator.

Shallow embedding conventions:
* Rust machine integers are modelled as `Int`/`Nat`; where overflow or an
  `as` cast matters the reduction modulo `2^w` is written explicitly
  (release-mode wrapping semantics).
* Fallible Rust code (`Result`) is modelled with `Except`.
* External library behaviour (chrono calendar rendering, rust_decimal
  rendering, the thread RNG) is modelled by explicit total functions or by
  passing the random draws as an argument; each such point carries a doc
  comment.  The *fallibility structure* of chrono conversions is modelled
  faithfully; the rendered text of dates/times is never inspected by any
  claim.
-/
import Mathlib

namespace Karna

/-- Abstract model of `std::io::Error` (carried inside filesystem errors,
never inspected beyond identity). -/
inductive IoError where
  | ioError (message : String)
deriving DecidableEq

/-- The engine's error enum (`src/engine/src/error.rs`), restricted to the
variants reachable from the embedded code. -/
inductive KError where
  | duckDBValueConversion (message : String)
  | fileSystem (ioSource : IoError) (path : String)
  | config (message : String)
  | invalidFormat (fmt : String)
deriving DecidableEq

/-- `serde_json::Value`.  Numbers are split into the integer-backed and the
(finite) double-backed cases of `serde_json::Number`. -/
inductive JsonValue where
  | null
  | bool (b : Bool)
  | intNum (i : Int)
  | floatNum (q : Rat)
  | str (s : String)
  | arr (elems : List JsonValue)
  | obj (fields : List (String × JsonValue))

/-- An `f64` (or widened `f32`): either a finite value, abstracted by the
rational it denotes exactly, or one of the non-finite categories.
`f32 as f64` widening preserves the category and the denoted value. -/
inductive RustFloat where
  | finite (q : Rat)
  | nan
  | posInf
  | negInf

/-- `duckdb::types::TimeUnit`. -/
inductive TimeUnit where
  | second
  | millisecond
  | microsecond
  | nanosecond
deriving DecidableEq

/-- `duckdb::types::Value`.  `decimal` abstracts a `rust_decimal::Decimal`
by its decimal string rendering (the codec only ever calls `.to_string()`
on it); struct-typed and map-typed values carry their ordered entry
lists. -/
inductive DValue where
  | null
  | boolean (b : Bool)
  | tinyInt (i : Int)
  | smallInt (i : Int)
  | int (i : Int)
  | bigInt (i : Int)
  | hugeInt (i : Int)
  | uTinyInt (n : Nat)
  | uSmallInt (n : Nat)
  | uInt (n : Nat)
  | uBigInt (n : Nat)
  | float (f : RustFloat)
  | double (f : RustFloat)
  | decimal (repr : String)
  | timestamp (unit : TimeUnit) (amount : Int)
  | text (s : String)
  | blob (bytes : List Nat)
  | date32 (days : Int)
  | time64 (unit : TimeUnit) (amount : Int)
  | interval (months : Int) (days : Int) (nanos : Int)
  | list (elems : List DValue)
  | enum (s : String)
  | struct (fields : List (String × DValue))
  | map (entries : List (DValue × DValue))
  | array (elems : List DValue)
  | union (value : DValue)

/-- Rust `u{w} as i{w}`: reinterpret an unsigned `w`-bit value as the
signed `w`-bit value with the same bit pattern. -/
def unsignedAsSigned (w : Nat) (n : Nat) : Int :=
  let m := n % 2 ^ w
  if m < 2 ^ (w - 1) then (m : Int) else (m : Int) - 2 ^ w

/-- `serde_json::Number::from_f64` composed with the `.map(Number).unwrap_or(Null)`
fallback (`float_to_json` in `utils.rs`): non-finite doubles become JSON null. -/
def float_to_json (f : RustFloat) : JsonValue :=
  match f with
  | .finite q => .floatNum q
  | _ => .null

/-- Lexicographic order on character lists by code point — Rust's `Ord`
for `String` (byte order; identical on the ASCII strings this code
handles). -/
def strLtChars : List Char → List Char → Bool
  | [], [] => false
  | [], _ :: _ => true
  | _ :: _, [] => false
  | a :: as, b :: bs =>
    if a.toNat < b.toNat then true
    else if a.toNat = b.toNat then strLtChars as bs
    else false

/-- Rust string comparison (see `strLtChars`). -/
def strLt (a b : String) : Bool := strLtChars a.toList b.toList

/-- Rust `str::starts_with`. -/
def rustStartsWith (s pre : String) : Bool := pre.toList.isPrefixOf s.toList

/-- Rust `str::ends_with`. -/
def rustEndsWith (s post : String) : Bool := post.toList.isSuffixOf s.toList

/-- Left-to-right non-overlapping replacement, fuelled by the input length
(one unit per consumed character, so the initial fuel always suffices);
the pattern is never empty at the call sites. -/
def replaceChars : Nat → List Char → List Char → List Char → List Char
  | 0, _, _, l => l
  | _ + 1, _, _, [] => []
  | fuel + 1, pat, rep, c :: rest =>
    if pat.isPrefixOf (c :: rest) && !pat.isEmpty then
      rep ++ replaceChars fuel pat rep (rest.drop (pat.length - 1))
    else c :: replaceChars fuel pat rep rest

/-- Rust `str::replace`: replace every (non-overlapping, left-to-right)
occurrence of `pat` by `rep`. -/
def rustReplace (s pat rep : String) : String :=
  String.mk (replaceChars s.toList.length pat.toList rep.toList s.toList)

/-- Insertion into a `serde_json::Map` / `BTreeMap`-backed string-keyed map:
keeps entries sorted by key, overwriting an existing binding.  Also used as
the canonical representation of `std::collections::HashMap<String, _>`,
whose iteration order is arbitrary (see `hashMapOfList`). -/
def sortedInsert {α : Type} : List (String × α) → String → α → List (String × α)
  | [], k, v => [(k, v)]
  | (k', v') :: rest, k, v =>
    if strLt k k' then (k, v) :: (k', v') :: rest
    else if k = k' then (k, v) :: rest
    else (k', v') :: sortedInsert rest k v

/-- Association-list lookup (first match). -/
def lookupA {α : Type} : List (String × α) → String → Option α
  | [], _ => none
  | (k, v) :: rest, q => if q = k then some v else lookupA rest q

/-- Wrap an integer to the signed 32-bit range (release-mode `i32` overflow). -/
def wrap32 (i : Int) : Int := (i + 2 ^ 31) % 2 ^ 32 - 2 ^ 31

/-- Wrap an integer to the signed 64-bit range (release-mode `i64` overflow). -/
def wrap64 (i : Int) : Int := (i + 2 ^ 63) % 2 ^ 64 - 2 ^ 63

/-- Rust `i64` division truncates toward zero. -/
def rustDiv (a b : Int) : Int := Int.tdiv a b

/-- Rust `i64` remainder takes the sign of the dividend. -/
def rustRem (a b : Int) : Int := Int.tmod a b

/-! ### chrono model

The repository delegates calendar conversion to the external `chrono`
crate.  The *domain* of each fallible chrono constructor is modelled (with
the seconds/day bounds of chrono's `NaiveDateTime`/`NaiveDate` range,
roughly ±262,000 years; the exact boundary constants are not relied on by
any theorem below); the rendered calendar text is modelled by explicit
total placeholder functions, since no claim inspects it. -/

/-- `chrono::DateTime::from_timestamp(secs, _)` succeeds iff `secs` lies in
chrono's representable range. -/
def chronoTimestampInRange (secs : Int) : Bool :=
  -8334601228800 ≤ secs && secs ≤ 8210266876799

/-- `chrono::NaiveDate::from_num_days_from_ce_opt(days)` succeeds iff
`days` lies in chrono's representable day range. -/
def chronoDaysInRange (days : Int) : Bool :=
  -95746124 ≤ days && days ≤ 95746096

/-- Modelled from chrono: the `%+` (RFC-3339) rendering of a timestamp.
Total; its output text is never inspected by any claim. -/
def chronoFormatPlus (unit : TimeUnit) (amount : Int) : String :=
  let u := match unit with
    | .second => "s"
    | .millisecond => "ms"
    | .microsecond => "us"
    | .nanosecond => "ns"
  "ts(" ++ u ++ "," ++ toString amount ++ ")"

/-- Modelled from chrono: `NaiveDate::to_string` (ISO-8601 date).  Total;
its output text is never inspected by any claim. -/
def chronoFormatDate (days : Int) : String :=
  "date(" ++ toString days ++ ")"

/-- Modelled from chrono: `NaiveTime::to_string` (ISO-8601 time of day).
Total; its output text is never inspected by any claim. -/
def chronoFormatTime (seconds nanos : Int) : String :=
  "time(" ++ toString seconds ++ "," ++ toString nanos ++ ")"

/-- `convert_timestamp` (`utils.rs`): seconds/millis/micros go through the
fallible `DateTime::from_timestamp*` constructors; the nanosecond path
uses the infallible `DateTime::from_timestamp_nanos`. -/
def convert_timestamp (unit : TimeUnit) (amount : Int) : Except KError JsonValue :=
  match unit with
  | .nanosecond => .ok (.str (chronoFormatPlus .nanosecond amount))
  | .second =>
    if chronoTimestampInRange amount then .ok (.str (chronoFormatPlus .second amount))
    else .error (.duckDBValueConversion "Failed to convert timestamp")
  | .millisecond =>
    if chronoTimestampInRange (Int.fdiv amount 1000) then
      .ok (.str (chronoFormatPlus .millisecond amount))
    else .error (.duckDBValueConversion "Failed to convert timestamp")
  | .microsecond =>
    if chronoTimestampInRange (Int.fdiv amount 1000000) then
      .ok (.str (chronoFormatPlus .microsecond amount))
    else .error (.duckDBValueConversion "Failed to convert timestamp")

/-- `convert_date32` (`utils.rs`): `days + 719163` (release-mode wrapping
`i32` addition) fed to `NaiveDate::from_num_days_from_ce_opt`. -/
def convert_date32 (days : Int) : Except KError JsonValue :=
  let d := wrap32 (days + 719163)
  if chronoDaysInRange d then .ok (.str (chronoFormatDate d))
  else .error (.duckDBValueConversion "Failed to convert Date32")

/-- `duckdb::types::TimeUnit::to_micros` (release-mode wrapping `i64`
multiplication; nanoseconds divide toward zero). -/
def timeUnitToMicros (unit : TimeUnit) (amount : Int) : Int :=
  match unit with
  | .second => wrap64 (amount * 1000000)
  | .millisecond => wrap64 (amount * 1000)
  | .microsecond => amount
  | .nanosecond => rustDiv amount 1000

/-- `convert_time64` (`utils.rs`): split the microsecond offset into
seconds/nanoseconds, convert each through `try_into::<u32>()`, then
`NaiveTime::from_num_seconds_from_midnight_opt` (which requires
`secs < 86400` and `nano < 2_000_000_000`). -/
def convert_time64 (unit : TimeUnit) (amount : Int) : Except KError JsonValue :=
  let micros := timeUnitToMicros unit amount
  let seconds := rustDiv micros 1000000
  let nanos := rustRem micros 1000000 * 1000
  if 0 ≤ seconds && seconds < 2 ^ 32 then
    if 0 ≤ nanos && nanos < 2 ^ 32 then
      if seconds < 86400 && nanos < 2000000000 then
        .ok (.str (chronoFormatTime seconds nanos))
      else .error (.duckDBValueConversion "Failed to create NaiveTime")
    else .error (.duckDBValueConversion "Failed to convert nanoseconds: out of range")
  else .error (.duckDBValueConversion "Failed to convert seconds: out of range")

/-- The numeric condition under which `convert_timestamp` succeeds: the
chrono constructor accepts the (unit-scaled) seconds value; the
nanosecond path is infallible. -/
def timestampInRange (unit : TimeUnit) (amount : Int) : Bool :=
  match unit with
  | .nanosecond => true
  | .second => chronoTimestampInRange amount
  | .millisecond => chronoTimestampInRange (Int.fdiv amount 1000)
  | .microsecond => chronoTimestampInRange (Int.fdiv amount 1000000)

/-- The numeric condition under which `convert_date32` succeeds. -/
def date32InRange (days : Int) : Bool :=
  chronoDaysInRange (wrap32 (days + 719163))

/-- The numeric condition under which `convert_time64` succeeds: the
seconds and nanoseconds components both fit `u32` and denote a valid
time of day. -/
def time64InRange (unit : TimeUnit) (amount : Int) : Bool :=
  (0 ≤ rustDiv (timeUnitToMicros unit amount) 1000000 &&
    rustDiv (timeUnitToMicros unit amount) 1000000 < 2 ^ 32) &&
  (0 ≤ rustRem (timeUnitToMicros unit amount) 1000000 * 1000 &&
    rustRem (timeUnitToMicros unit amount) 1000000 * 1000 < 2 ^ 32) &&
  (rustDiv (timeUnitToMicros unit amount) 1000000 < 86400 &&
    rustRem (timeUnitToMicros unit amount) 1000000 * 1000 < 2000000000)

/-- Modelled from serde_json: decimal rendering of a finite double used
when a float-typed map key is stringified.  Total; never inspected. -/
def renderFiniteDouble (q : Rat) : String := "f(" ++ toString q ++ ")"

/-- `bool::to_string`. -/
def rustBoolString (b : Bool) : String := if b then "true" else "false"

mutual

/-- `duckdb_value_to_json_value` (`utils.rs`): the value codec.  Every
variant of the native value model is mapped to a JSON value or a
`DuckDBValueConversion` error.  Note the unsigned integer branches
reinterpret the value as the *signed* type of the same width
(`i as i8` etc.), faithfully reproduced here via `unsignedAsSigned`. -/
def duckdb_value_to_json_value : DValue → Except KError JsonValue
  | .null => .ok .null
  | .boolean b => .ok (.bool b)
  | .tinyInt i => .ok (.intNum i)
  | .uTinyInt n => .ok (.intNum (unsignedAsSigned 8 n))
  | .smallInt i => .ok (.intNum i)
  | .uSmallInt n => .ok (.intNum (unsignedAsSigned 16 n))
  | .int i => .ok (.intNum i)
  | .uInt n => .ok (.intNum (unsignedAsSigned 32 n))
  | .bigInt i => .ok (.intNum i)
  | .uBigInt n => .ok (.intNum (unsignedAsSigned 64 n))
  | .float f => .ok (float_to_json f)
  | .double f => .ok (float_to_json f)
  | .text s => .ok (.str s)
  | .enum s => .ok (.str s)
  | .blob bytes => .ok (.arr (bytes.map (fun b => .intNum (b : Int))))
  | .timestamp unit amount => convert_timestamp unit amount
  | .date32 days => convert_date32 days
  | .time64 unit amount => convert_time64 unit amount
  | .interval months days nanos =>
    .ok (.obj (sortedInsert (sortedInsert (sortedInsert []
      "months" (.intNum months)) "days" (.intNum days)) "nanos" (.intNum nanos)))
  | .list elems => (convert_list elems).map .arr
  | .array elems => (convert_list elems).map .arr
  | .struct fields => (convert_struct fields []).map .obj
  | .union v => duckdb_value_to_json_value v
  | .map entries => (convert_map entries []).map .obj
  | .hugeInt i => .ok (.str (toString i))
  | .decimal repr => .ok (.str repr)

/-- `convert_list` (`utils.rs`): recursively convert every element,
propagating the first conversion error. -/
def convert_list : List DValue → Except KError (List JsonValue)
  | [] => .ok []
  | v :: rest => do
    let j ← duckdb_value_to_json_value v
    let js ← convert_list rest
    .ok (j :: js)

/-- `convert_struct` (`utils.rs`): fold the field list into a
`serde_json::Map` (BTreeMap — key-sorted), converting each value. -/
def convert_struct : List (String × DValue) → List (String × JsonValue) →
    Except KError (List (String × JsonValue))
  | [], acc => .ok acc
  | (k, v) :: rest, acc => do
    let j ← duckdb_value_to_json_value v
    convert_struct rest (sortedInsert acc k j)

/-- `convert_map` (`utils.rs`): convert each key, stringify it (strings
stay; booleans/numbers/null use their textual form; anything else is a
conversion error), convert each value, and fold into a `serde_json::Map`. -/
def convert_map : List (DValue × DValue) → List (String × JsonValue) →
    Except KError (List (String × JsonValue))
  | [], acc => .ok acc
  | (k, v) :: rest, acc => do
    let kj ← duckdb_value_to_json_value k
    let keyString ←
      match kj with
      | .str s => Except.ok s
      | .bool b => Except.ok (rustBoolString b)
      | .intNum i => Except.ok (toString i)
      | .floatNum q => Except.ok (renderFiniteDouble q)
      | .null => Except.ok "null"
      | _ => Except.error (KError.duckDBValueConversion
          "Map key must be convertible to string")
    let vj ← duckdb_value_to_json_value v
    convert_map rest (sortedInsert acc keyString vj)

end

/-! ### Row and query materialization (`duckdb_row_to_json`, `DuckDBDriver::query`) -/

/-- The per-column fallback applied inside `duckdb_row_to_json`:
`duckdb_value_to_json_value(value).map_or(JsonValue::Null, |e| e)` —
a conversion error is silently replaced by JSON null. -/
def convertOrNull (v : DValue) : JsonValue :=
  match duckdb_value_to_json_value v with
  | .ok j => j
  | .error _ => .null

/-- `duckdb_row_to_json` (`utils.rs`), with the row given as its list of
already-fetched column values (`row.get(i)` is modelled as succeeding;
its own failure mode is a driver-level error outside the codec).  The
source loop pushes one converted value per column into a vector. -/
def duckdb_row_to_json : List DValue → Except KError (List JsonValue)
  | [] => .ok []
  | v :: rest => do
    let j := convertOrNull v
    let js ← duckdb_row_to_json rest
    .ok (j :: js)

/-- Canonical representation of a `std::collections::HashMap<String, α>`
built by collecting a sequence of key/value pairs: Rust's hash map has an
*arbitrary, unobservable* iteration order (per-process random hashing), so
the unordered map is represented by its key-sorted association list;
later bindings of the same key overwrite earlier ones, as `insert` does. -/
def hashMapOfList {α : Type} (l : List (String × α)) : List (String × α) :=
  l.foldl (fun m kv => sortedInsert m kv.1 kv.2) []

/-- The `while let Some(row) = rows.next()` accumulation loop of
`DuckDBDriver::query`: convert each row via `duckdb_row_to_json`,
propagating any error. -/
def query_rows_loop : List (List DValue) → Except KError (List (List JsonValue))
  | [] => .ok []
  | row :: rest => do
    let values ← duckdb_row_to_json row
    let acc ← query_rows_loop rest
    .ok (values :: acc)

/-- The row-materialization part of `DuckDBDriver::query` (`driver.rs`):
convert every row, then zip the prepared statement's schema column names
with each row's values and collect each row into a
`HashMap<String, Value>`. -/
def query_rows (columnNames : List String) (rows : List (List DValue)) :
    Except KError (List (List (String × JsonValue))) := do
  let rowsData ← query_rows_loop rows
  .ok (rowsData.map (fun values => hashMapOfList (columnNames.zip values)))

/-- Modelled from the spec (for the refinement comparison in C4): each row
as "an ordered mapping from column name (taken from the prepared
statement's schema, in schema order) to its converted value". -/
def claimed_query_rows (columnNames : List String) (rows : List (List DValue)) :
    List (List (String × JsonValue)) :=
  rows.map (fun row => columnNames.zip (row.map convertOrNull))

/-! ### Identifier sanitizer (`sanitize_to_sql_name`, `generate_random_string`)

Every character of the intermediate strings is ASCII (the mapping step
keeps only ASCII alphanumerics, everything else becomes `'_'`), so Rust's
byte indexing (`&s[..63]`, `len()`, `rfind`) coincides with character
indexing; the embedding therefore works on `List Char`. -/

/-- Rust `str::split(sep)` on a character separator (`"".split` yields one
empty piece; consecutive separators yield empty pieces). -/
def splitSep (sep : Char) : List Char → List (List Char)
  | [] => [[]]
  | c :: rest =>
    if c = sep then [] :: splitSep sep rest
    else
      match splitSep sep rest with
      | [] => [[c]]
      | p :: ps => (c :: p) :: ps

/-- Rust `Vec::join("_")`. -/
def joinU : List (List Char) → List Char
  | [] => []
  | [p] => p
  | p :: ps => p ++ '_' :: joinU ps

/-- Rust `str::rfind(c)`: index of the last occurrence. -/
def rfindIdx (c : Char) : List Char → Option Nat
  | [] => none
  | a :: rest =>
    match rfindIdx c rest with
    | some i => some (i + 1)
    | none => if a = c then some 0 else none

/-- The `sanitized` string of `sanitize_to_sql_name` (`utils.rs`): map
non-ASCII-alphanumerics to `'_'`, split on `'_'`, drop empty segments,
re-join with `'_'`. -/
def sanitizedOf (filename : List Char) : List Char :=
  joinU ((splitSep '_'
    (filename.map (fun c => if c.isAlphanum then c else '_'))).filter (fun p => p ≠ []))

/-- The deterministic part of `sanitize_to_sql_name` before the random
suffix is appended: the `sanitized` string, with `'n'` prepended when it
starts with a digit. -/
def sanitizeCore (filename : List Char) : List Char :=
  let sanitized := sanitizedOf filename
  let startsDigit :=
    match sanitized.head? with
    | some c => c.isDigit
    | none => false
  if startsDigit then 'n' :: sanitized else sanitized

/-- The truncation step of `sanitize_to_sql_name`: if the candidate
exceeds 63 characters, cut to 63 and then back to the last `'_'` (when
that underscore is not at position 0). -/
def truncateStep (vs : List Char) : List Char :=
  if vs.length > 63 then
    let tr := vs.take 63
    match rfindIdx '_' tr with
    | some pos => if 0 < pos then vs.take pos else tr
    | none => tr
  else vs

/-- The RNG character set of `generate_random_string`. -/
def CHARSET : List Char :=
  "abcdefghijklmnopqrstuvwxyzABCDEFGHIJKLMNOPQRSTUVWXYZ0123456789".toList

/-- `generate_random_string` (`utils.rs`), with the thread RNG modelled by
an explicit stream of draws; each draw indexes `CHARSET` (the source's
`gen_range(0..CHARSET.len())` always yields an in-range index; the model
reduces the draw modulo the charset size). -/
def generate_random_string (length : Nat) (draws : List Nat) : List Char :=
  (draws.take length).map (fun i => CHARSET.getD (i % CHARSET.length) 'a')

/-- `sanitize_to_sql_name` (`utils.rs`), with the thread RNG modelled by
the explicit draw stream: sanitize, append `"_" ++ random suffix`, then
truncate. -/
def sanitize_to_sql_name (filename : String) (draws : List Nat) : String :=
  let suffix := generate_random_string 6 draws
  String.mk (truncateStep (sanitizeCore filename.toList ++ '_' :: suffix))

/-! ### Startup directory scan (`list_db_files`, `driver.rs`) -/

/-- One entry of `std::fs::read_dir`: its file name and whether it is a
directory.  A listed entry exists, so the source's `!path.exists()` test
is modelled as false. -/
structure DirEntry where
  name : String
  isDir : Bool
deriving DecidableEq

/-- The components of a path string, as `std::path::Path` normalizes them
(separator-split, empty pieces dropped). -/
def pathComponentsL (l : List Char) : List (List Char) :=
  (splitSep '/' l).filter (fun p => p ≠ [])

/-- Rust `Path::ends_with(child)`: the components of `child` are a suffix
of the components of the path. -/
def rustPathEndsWith (p child : String) : Bool :=
  let pc := pathComponentsL p.toList
  let cc := pathComponentsL child.toList
  cc.length ≤ pc.length && pc.drop (pc.length - cc.length) == cc

/-- The `for entry in entries` loop of `list_db_files`, with the
`db_files` accumulator explicit. -/
def list_db_files_loop (dir : String) : List DirEntry → List String → List String
  | [], acc => acc
  | e :: rest, acc =>
    if rustEndsWith e.name ".db" && !(rustStartsWith e.name "main") then
      if e.isDir || rustPathEndsWith (dir ++ "/" ++ e.name) (e.name ++ ".wal") then
        list_db_files_loop dir rest acc
      else list_db_files_loop dir rest (acc ++ [rustReplace e.name ".db" ""])
    else list_db_files_loop dir rest acc

/-- `list_db_files` (`driver.rs`): keep entries whose name ends in `.db`
and does not start with `main`; skip directories (the `!path.exists()`
test is false for a just-listed entry) and any entry whose path
`ends_with` its own name plus `.wal`; the alias is
`file_name.replace(".db", "")` — every occurrence removed. -/
def list_db_files (dir : String) (entries : List DirEntry) : List String :=
  list_db_files_loop dir entries []

/-- Modelled from the spec (for the refinement comparison in C3), for a
directory listing without any `.wal` sibling (so the claim's
"actively-written `.wal` sibling" clause is vacuously satisfied): attach
every file matching `*.db` that is not named `main.db`, and use the file
name with (only) the trailing `.db` suffix stripped as the alias. -/
def claimed_db_aliases (entries : List DirEntry) : List String :=
  (entries.filter (fun e => rustEndsWith e.name ".db" && e.name ≠ "main.db")).map
    (fun e => String.mk (e.name.toList.take (e.name.toList.length - 3)))

/-! ### `drop_table` (`driver.rs`) -/

/-- `OlapDriver::drop_table` for the DuckDB driver: the result of
`detach_table` is discarded (`let _ = ...`); then the backing file
`<storage_dir>/<name>.db` is removed, a removal failure being wrapped as a
`FileSystem` error carrying the path.  The two effectful calls are
modelled by passing their outcomes as arguments. -/
def drop_table (detachResult : Except KError Unit) (removeResult : Except IoError Unit)
    (storageDir tableName : String) : Except KError Unit :=
  let _ := detachResult
  let path := storageDir ++ "/" ++ tableName ++ ".db"
  match removeResult with
  | .ok _ => .ok ()
  | .error e => .error (.fileSystem e path)

/-! ### Configuration / DSN builder (`config.rs`) -/

/-- Rust `Path::is_absolute` (Unix). -/
def rustPathIsAbsolute (p : String) : Bool := rustStartsWith p "/"

/-- Rust `Path::parent` (Unix, for the ordinary paths the driver sees):
everything before the last separator; `"/"` has no parent; a bare file
name has the empty parent. -/
def rustPathParent (p : String) : Option String :=
  match rfindIdx '/' p.toList with
  | none => if p = "" then none else some ""
  | some 0 => if p.length = 1 then none else some "/"
  | some i => some (String.mk (p.toList.take i))

/-- `Config` (`config.rs`). -/
structure Config where
  dsn : String
  cpu_cores : Option Nat
  memory_limit_gb : Option Nat
  storage_limit_bytes : Option Nat
  boot_queries : List String
  db_file_path : String
  db_storage_path : String
  pool_size : Option Nat
deriving DecidableEq

/-- `Config::new` (`config.rs`): requires an absolute path with a parent
directory; all tuning fields start unset. -/
def Config.new (dsnPath : String) : Except KError Config :=
  if !(rustPathIsAbsolute dsnPath) then
    .error (.config "DSN path must be absolute")
  else
    match rustPathParent dsnPath with
    | none => .error (.config "DSN path has no parent directory")
    | some parent =>
      .ok { dsn := dsnPath, cpu_cores := none, memory_limit_gb := none,
            storage_limit_bytes := none, boot_queries := [],
            db_file_path := dsnPath, db_storage_path := parent,
            pool_size := none }

/-- `Config::with_memory_limit_gb`: valid in `[1, 1024]`. -/
def Config.with_memory_limit_gb (c : Config) (limitGb : Nat) : Except KError Config :=
  if 1 ≤ limitGb && limitGb ≤ 1024 then .ok { c with memory_limit_gb := some limitGb }
  else .error (.config ("Invalid memory limit: " ++ toString limitGb ++ " GB"))

/-- `Config::with_pool_size`: must be positive. -/
def Config.with_pool_size (c : Config) (poolSize : Nat) : Except KError Config :=
  if poolSize = 0 then .error (.config "Pool size must be greater than zero")
  else .ok { c with pool_size := some poolSize }

/-- `Config::build_dsn` (`config.rs`): the primary path followed, when any
of the cpu/memory/storage parameters is set, by `?` and the set
parameters joined with `&`.  The pool size is not serialized. -/
def Config.build_dsn (c : Config) : String :=
  let params : List String := []
  let params := params ++
    (match c.cpu_cores with
     | some cores => ["cpu=" ++ toString cores]
     | none => [])
  let params := params ++
    (match c.memory_limit_gb with
     | some memory => ["max_memory_limit=" ++ toString memory]
     | none => [])
  let params := params ++
    (match c.storage_limit_bytes with
     | some storage => ["storage_limit=" ++ toString storage]
     | none => [])
  if params = [] then c.dsn
  else c.dsn ++ "?" ++ String.intercalate "&" params

/-! ### Ingestion SQL generator (`sources/file_system.rs`, `sources/utils.rs`)

Parameter maps are `HashMap<String, String>`; as for rows, the unordered
hash map is represented canonically by a key-sorted association list
(`sortedInsert` / `hashMapOfList`). -/

/-- `FileFormat` (`file_system.rs`). -/
inductive FileFormat where
  | csv
  | tsv
  | txt
  | parquet
  | json
deriving DecidableEq

/-- `FileFormat::default_params` (`file_system.rs`): text-based formats get
`auto_detect = true` and `sample_size = 1000`; csv/tsv add
`header = true`; tsv additionally forces the tab delimiter; parquet gets
`union_by_name = true`. -/
def FileFormat.default_params (fmt : FileFormat) : List (String × String) :=
  let params : List (String × String) := []
  let params :=
    match fmt with
    | .csv | .tsv | .txt | .json =>
      sortedInsert (sortedInsert params "auto_detect" "true") "sample_size" "1000"
    | _ => params
  match fmt with
  | .csv | .tsv =>
    let params := sortedInsert params "header" "true"
    if fmt = .tsv then sortedInsert params "delimiter" "\t" else params
  | .parquet => sortedInsert params "union_by_name" "true"
  | _ => params

/-- The override merge in `FileSystem::generate_sql` (`file_system.rs`):
start from the format defaults and `insert` every caller-supplied
parameter, overwriting key-by-key. -/
def merge_params (defaults overrides : List (String × String)) : List (String × String) :=
  overrides.foldl (fun m kv => sortedInsert m kv.1 kv.2) defaults

/-- The rendered `key = 'value'` fragments of a parameter map
(`params.iter().map(|(k, v)| format!("{} = '{}'", k, v))`). -/
def renderParams (params : List (String × String)) : List String :=
  params.map (fun kv => kv.1 ++ " = '" ++ kv.2 ++ "'")

/-- `generate_read_csv_statement` (`sources/utils.rs`). -/
def generate_read_csv_statement (path : String) (params : List (String × String)) : String :=
  if params = [] then "read_csv(" ++ "'" ++ path ++ "')"
  else "read_csv(" ++ "'" ++ path ++ "', " ++ String.intercalate ", " (renderParams params) ++ ")"

/-- The last binding of a key in a sequence of inserted pairs (what a map
built from those pairs associates to the key). -/
def lookupLast {α : Type} : List (String × α) → String → Option α
  | [], _ => none
  | (k, v) :: rest, q =>
    match lookupLast rest q with
    | some w => some w
    | none => if q = k then some v else none

/-! ### Risk classification for the codec's totality claim (C7)

`riskFree` marks the values whose conversion cannot fail: every temporal
component anywhere in the value is numerically in range (the out-of-range
temporal conversions are the codec's only numeric failure points) and
every map key is of a shape the key stringification accepts. -/

mutual

/-- Keys accepted by `convert_map`'s stringification: values that convert
to a JSON string, boolean, number or null.  Temporal keys convert to
strings, so they are accepted (their in-range condition is enforced by
`riskFree`). -/
def keyOk : DValue → Bool
  | .null | .boolean _ => true
  | .tinyInt _ | .smallInt _ | .int _ | .bigInt _ => true
  | .uTinyInt _ | .uSmallInt _ | .uInt _ | .uBigInt _ => true
  | .float _ | .double _ => true
  | .text _ | .enum _ => true
  | .hugeInt _ | .decimal _ => true
  | .timestamp _ _ | .date32 _ | .time64 _ _ => true
  | .union v => keyOk v
  | _ => false

/-- Every temporal component anywhere in the value is numerically in
range, and every map key both risk-free and of a stringifiable shape. -/
def riskFree : DValue → Bool
  | .timestamp unit amount => timestampInRange unit amount
  | .date32 days => date32InRange days
  | .time64 unit amount => time64InRange unit amount
  | .list elems | .array elems => riskFreeList elems
  | .struct fields => riskFreeFields fields
  | .map entries => riskFreePairs entries
  | .union v => riskFree v
  | _ => true

def riskFreeList : List DValue → Bool
  | [] => true
  | v :: rest => riskFree v && riskFreeList rest

def riskFreeFields : List (String × DValue) → Bool
  | [] => true
  | (_, v) :: rest => riskFree v && riskFreeFields rest

def riskFreePairs : List (DValue × DValue) → Bool
  | [] => true
  | (k, v) :: rest => keyOk k && riskFree k && riskFree v && riskFreePairs rest

end

/-- JSON shapes accepted by `convert_map`'s key stringification. -/
def stringifiableJson : JsonValue → Bool
  | .null | .bool _ | .intNum _ | .floatNum _ | .str _ => true
  | _ => false

/-! ## Theorems -/

/-! ### Association-map lemmas -/

theorem lookupA_sortedInsert {α : Type} (m : List (String × α)) (k q : String) (v : α) :
    lookupA (sortedInsert m k v) q = if q = k then some v else lookupA m q := by
  induction m with
  | nil => simp [sortedInsert, lookupA]
  | cons kv rest ih =>
    obtain ⟨k', v'⟩ := kv
    by_cases hlt : strLt k k'
    · simp [sortedInsert, hlt, lookupA]
    · by_cases heq : k = k'
      · subst heq
        simp only [sortedInsert, if_neg hlt, if_pos rfl, lookupA]
        by_cases hqk : q = k <;> simp [hqk]
      · simp only [sortedInsert, if_neg hlt, if_neg heq, lookupA]
        by_cases hqk' : q = k'
        · have hqk : q ≠ k := by
            intro h
            exact heq (h ▸ hqk')
          simp [hqk', hqk, Ne.symm heq]
        · simp [hqk', ih]

theorem lookupA_foldl_sortedInsert {α : Type} (l : List (String × α))
    (init : List (String × α)) (q : String) :
    lookupA (l.foldl (fun m kv => sortedInsert m kv.1 kv.2) init) q =
      (lookupLast l q).or (lookupA init q) := by
  induction l generalizing init with
  | nil => simp [lookupLast]
  | cons kv rest ih =>
    obtain ⟨k, v⟩ := kv
    simp only [List.foldl_cons, lookupLast]
    rw [ih]
    cases h : lookupLast rest q with
    | some w => simp [h]
    | none =>
      simp only [h, lookupA_sortedInsert]
      by_cases hqk : q = k <;> simp [hqk]

theorem lookupA_hashMapOfList {α : Type} (l : List (String × α)) (q : String) :
    lookupA (hashMapOfList l) q = lookupLast l q := by
  unfold hashMapOfList
  rw [lookupA_foldl_sortedInsert]
  cases lookupLast l q <;> simp [lookupA]

theorem duckdb_row_to_json_eq (row : List DValue) :
    duckdb_row_to_json row = .ok (row.map convertOrNull) := by
  induction row with
  | nil => rfl
  | cons v rest ih =>
    show (do
      let js ← duckdb_row_to_json rest
      Except.ok (convertOrNull v :: js)) = _
    rw [ih]
    rfl

theorem query_rows_loop_eq (rows : List (List DValue)) :
    query_rows_loop rows = .ok (rows.map (fun r => r.map convertOrNull)) := by
  induction rows with
  | nil => rfl
  | cons row rest ih =>
    show (do
      let values ← duckdb_row_to_json row
      let acc ← query_rows_loop rest
      Except.ok (values :: acc)) = _
    rw [duckdb_row_to_json_eq, ih]
    rfl

theorem query_rows_eq (names : List String) (rows : List (List DValue)) :
    query_rows names rows =
      .ok (rows.map (fun r => hashMapOfList (names.zip (r.map convertOrNull)))) := by
  show (do
    let rowsData ← query_rows_loop rows
    Except.ok (rowsData.map (fun values => hashMapOfList (names.zip values)))) = _
  rw [query_rows_loop_eq]
  show Except.ok _ = _
  rw [List.map_map]
  rfl

theorem lookupLast_zip_not_mem {α : Type} (ns : List String) (xs : List α) (q : String)
    (h : q ∉ ns) : lookupLast (ns.zip xs) q = none := by
  induction ns generalizing xs with
  | nil => rfl
  | cons n ns' ih =>
    cases xs with
    | nil => rfl
    | cons x xs' =>
      have hq : q ≠ n := fun he => h (he ▸ List.mem_cons_self n ns')
      rw [show (n :: ns').zip (x :: xs') = (n, x) :: ns'.zip xs' from rfl]
      show (match lookupLast (ns'.zip xs') q with
        | some w => some w
        | none => if q = n then some x else none) = none
      rw [ih xs' (fun hm => h (List.mem_cons_of_mem _ hm))]
      simp [hq]

theorem lookupLast_zip_nodup {α : Type} (names : List String) (xs : List α) (i : Nat)
    (hn : names.Nodup) (hi : i < names.length) (hx : i < xs.length) :
    lookupLast (names.zip xs) names[i] = some xs[i] := by
  induction names generalizing xs i with
  | nil => simp at hi
  | cons n ns ih =>
    cases xs with
    | nil => simp at hx
    | cons x xs' =>
      rw [show (n :: ns).zip (x :: xs') = (n, x) :: ns.zip xs' from rfl]
      cases i with
      | zero =>
        have hnot : n ∉ ns := (List.nodup_cons.mp hn).1
        show (match lookupLast (ns.zip xs') (n :: ns)[0] with
          | some w => some w
          | none => if (n :: ns)[0] = n then some x else none) = some (x :: xs')[0]
        simp only [List.getElem_cons_zero]
        rw [lookupLast_zip_not_mem ns xs' n hnot]
        simp
      | succ j =>
        have hrec := ih xs' j (List.nodup_cons.mp hn).2 (by simpa using hi) (by simpa using hx)
        show (match lookupLast (ns.zip xs') (n :: ns)[j + 1] with
          | some w => some w
          | none => if (n :: ns)[j + 1] = n then some x else none) = some (x :: xs')[j + 1]
        simp only [List.getElem_cons_succ]
        rw [hrec]

theorem toList_append (a b : String) : (a ++ b).toList = a.toList ++ b.toList :=
  String.data_append a b

theorem splitSep_ne_nil (c : Char) (l : List Char) : splitSep c l ≠ [] := by
  cases l with
  | nil => simp [splitSep]
  | cons a rest =>
    by_cases h : a = c
    · simp [splitSep, h]
    · simp only [splitSep, if_neg h]
      cases splitSep c rest <;> simp

theorem splitSep_append (c : Char) (xs ys : List Char) :
    splitSep c (xs ++ c :: ys) = splitSep c xs ++ splitSep c ys := by
  induction xs with
  | nil => simp [splitSep]
  | cons a xs' ih =>
    by_cases h : a = c
    · simp [splitSep, h, ih]
    · obtain ⟨p, ps, hp⟩ : ∃ p ps, splitSep c xs' = p :: ps := by
        cases hsp : splitSep c xs' with
        | nil => exact absurd hsp (splitSep_ne_nil c xs')
        | cons p ps => exact ⟨p, ps, rfl⟩
      simp only [List.cons_append, splitSep, if_neg h]
      change (match splitSep c (xs' ++ c :: ys) with
        | [] => [[a]]
        | p :: ps => (a :: p) :: ps) = _
      rw [ih, hp]
      rfl

theorem splitSep_no_sep (c : Char) (l : List Char) (h : c ∉ l) : splitSep c l = [l] := by
  induction l with
  | nil => rfl
  | cons a rest ih =>
    have ha : a ≠ c := fun he => h (he ▸ List.mem_cons_self a rest)
    simp only [splitSep, if_neg ha, ih (fun hm => h (List.mem_cons_of_mem a hm))]

/-- On a path of the shape `dir ++ "/" ++ name` (no separator inside
`name`), the source's `path.ends_with(format!("{}.wal", file_name))` test
is always false: the path's last component is `name`, never
`name ++ ".wal"`.  The `.wal`-sibling check of the spec is therefore never
performed. -/
theorem rustPathEndsWith_wal (dir name : String) (hne : name.toList ≠ [])
    (hs : '/' ∉ name.toList) :
    rustPathEndsWith (dir ++ "/" ++ name) (name ++ ".wal") = false := by
  have hpath : (dir ++ "/" ++ name).toList = dir.toList ++ '/' :: name.toList := by
    rw [toList_append, toList_append, List.append_assoc]
    rfl
  have hwal : (name ++ ".wal").toList = name.toList ++ ".wal".toList :=
    toList_append name ".wal"
  have hwal_nosep : '/' ∉ (name.toList ++ ".wal".toList) := by
    intro hm
    rcases List.mem_append.mp hm with hm | hm
    · exact hs hm
    · simp at hm
  have hcc : pathComponentsL (name ++ ".wal").toList = [name.toList ++ ".wal".toList] := by
    rw [hwal]
    unfold pathComponentsL
    rw [splitSep_no_sep _ _ hwal_nosep]
    have hx : name.toList ++ ".wal".toList ≠ [] := by
      intro h
      exact hne (List.append_eq_nil.mp h).1
    simp only [List.filter_cons, List.filter_nil]
    rw [if_pos (by simp [hx])]
  have hpc : pathComponentsL (dir ++ "/" ++ name).toList =
      pathComponentsL dir.toList ++ [name.toList] := by
    rw [hpath]
    unfold pathComponentsL
    rw [splitSep_append, List.filter_append, splitSep_no_sep _ _ hs]
    simp only [List.filter_cons, List.filter_nil]
    rw [if_pos (by simpa using hne)]
  unfold rustPathEndsWith
  rw [hcc, hpc]
  have hlen : (pathComponentsL dir.toList ++ [name.toList]).length =
      (pathComponentsL dir.toList).length + 1 := by simp
  simp only [hlen, List.length_singleton]
  have hdrop : (pathComponentsL dir.toList ++ [name.toList]).drop
      ((pathComponentsL dir.toList).length + 1 - 1) = [name.toList] := by
    simp only [Nat.add_sub_cancel]
    exact List.drop_left _ _
  rw [hdrop]
  have hne' : ([name.toList] : List (List Char)) ≠ [name.toList ++ ".wal".toList] := by
    intro h
    have h1 : name.toList = name.toList ++ ".wal".toList := by
      injection h
    have : (".wal".toList : List Char) = [] := (List.self_eq_append_right.mp h1)
    simp at this
  simp [hne']

/-- C3 auxiliary: the scan loop, with the accumulator generalized. -/
theorem list_db_files_loop_eq (dir : String) (entries : List DirEntry)
    (h : ∀ e ∈ entries, e.name.toList ≠ [] ∧ '/' ∉ e.name.toList) :
    ∀ acc : List String,
      list_db_files_loop dir entries acc =
        acc ++ (entries.filter (fun e =>
            !e.isDir && (rustEndsWith e.name ".db" && !(rustStartsWith e.name "main")))).map
          (fun e => rustReplace e.name ".db" "") := by
  induction entries with
  | nil => simp [list_db_files_loop]
  | cons e rest ih =>
    intro acc
    have he := h e (List.mem_cons_self e rest)
    have hrest := fun e' he' => h e' (List.mem_cons_of_mem e he')
    have hwal := rustPathEndsWith_wal dir e.name he.1 he.2
    rw [list_db_files_loop, hwal]
    by_cases hc : rustEndsWith e.name ".db" && !(rustStartsWith e.name "main")
    · rw [if_pos hc]
      by_cases hd : e.isDir
      · rw [if_pos (by simp [hd]), ih hrest acc, List.filter_cons,
          if_neg (by simp [hd])]
      · rw [if_neg (by simp [hd]), ih hrest, List.filter_cons,
          if_pos (by simp [hd, hc]), List.map_cons, List.append_assoc]
        rfl
    · rw [if_neg hc, ih hrest acc, List.filter_cons,
        if_neg (by simp only [Bool.and_eq_true, not_and] at hc ⊢ ; intro _ ; exact hc)]

theorem mem_of_head?_eq {α : Type} {l : List α} {a : α} (h : l.head? = some a) : a ∈ l := by
  cases l with
  | nil => simp at h
  | cons b l' =>
    simp only [List.head?_cons, Option.some.injEq] at h
    exact h ▸ List.mem_cons_self b l'

theorem mem_of_getLast?_eq {α : Type} {l : List α} {a : α} (h : l.getLast? = some a) :
    a ∈ l := by
  induction l with
  | nil => simp at h
  | cons b l' ih =>
    rw [List.getLast?_cons] at h
    cases hl : l'.getLast? with
    | none =>
      rw [hl] at h
      simp only [Option.getD_none, Option.some.injEq] at h
      exact h ▸ List.mem_cons_self b l'
    | some c =>
      rw [hl] at h
      simp only [Option.getD_some, Option.some.injEq] at h
      subst h
      exact List.mem_cons_of_mem b (ih hl)

theorem splitSep_not_mem (c : Char) (l : List Char) : ∀ p ∈ splitSep c l, c ∉ p := by
  induction l with
  | nil =>
    intro p hp
    simp [splitSep] at hp
    simp [hp]
  | cons a rest ih =>
    intro p hp
    by_cases h : a = c
    · rw [splitSep, if_pos h] at hp
      rcases List.mem_cons.mp hp with hp | hp
      · simp [hp]
      · exact ih p hp
    · rw [splitSep, if_neg h] at hp
      obtain ⟨q, qs, hq⟩ : ∃ q qs, splitSep c rest = q :: qs := by
        cases hsp : splitSep c rest with
        | nil => exact absurd hsp (splitSep_ne_nil c rest)
        | cons q qs => exact ⟨q, qs, rfl⟩
      rw [hq] at hp
      rcases List.mem_cons.mp hp with hp | hp
      · subst hp
        intro hmem
        rcases List.mem_cons.mp hmem with hc | hc
        · exact h hc.symm
        · exact ih q (hq ▸ List.mem_cons_self q qs) hc
      · exact ih p (hq ▸ List.mem_cons_of_mem q hp)

theorem splitSep_mem_subset (c : Char) (l : List Char) :
    ∀ p ∈ splitSep c l, ∀ a ∈ p, a ∈ l := by
  induction l with
  | nil =>
    intro p hp
    simp [splitSep] at hp
    simp [hp]
  | cons b rest ih =>
    intro p hp a ha
    by_cases h : b = c
    · rw [splitSep, if_pos h] at hp
      rcases List.mem_cons.mp hp with hp | hp
      · subst hp; simp at ha
      · exact List.mem_cons_of_mem b (ih p hp a ha)
    · rw [splitSep, if_neg h] at hp
      obtain ⟨q, qs, hq⟩ : ∃ q qs, splitSep c rest = q :: qs := by
        cases hsp : splitSep c rest with
        | nil => exact absurd hsp (splitSep_ne_nil c rest)
        | cons q qs => exact ⟨q, qs, rfl⟩
      rw [hq] at hp
      rcases List.mem_cons.mp hp with hp | hp
      · subst hp
        rcases List.mem_cons.mp ha with ha | ha
        · exact ha ▸ List.mem_cons_self b rest
        · exact List.mem_cons_of_mem b (ih q (hq ▸ List.mem_cons_self q qs) a ha)
      · exact List.mem_cons_of_mem b (ih p (hq ▸ List.mem_cons_of_mem q hp) a ha)

theorem joinU_mem (ps : List (List Char)) :
    ∀ a ∈ joinU ps, a = '_' ∨ ∃ p ∈ ps, a ∈ p := by
  induction ps with
  | nil => intro a ha; simp [joinU] at ha
  | cons p ps' ih =>
    intro a ha
    cases ps' with
    | nil =>
      right
      exact ⟨p, List.mem_cons_self p [], ha⟩
    | cons q qs =>
      rw [show joinU (p :: q :: qs) = p ++ '_' :: joinU (q :: qs) from rfl] at ha
      rcases List.mem_append.mp ha with ha | ha
      · exact Or.inr ⟨p, List.mem_cons_self p _, ha⟩
      · rcases List.mem_cons.mp ha with ha | ha
        · exact Or.inl ha
        · rcases ih a ha with h | ⟨r, hr, har⟩
          · exact Or.inl h
          · exact Or.inr ⟨r, List.mem_cons_of_mem p hr, har⟩

theorem joinU_ne_nil (ps : List (List Char)) (h0 : ps ≠ [])
    (h : ∀ p ∈ ps, p ≠ []) : joinU ps ≠ [] := by
  cases ps with
  | nil => exact absurd rfl h0
  | cons p ps' =>
    cases ps' with
    | nil => exact h p (List.mem_cons_self p [])
    | cons q qs =>
      rw [show joinU (p :: q :: qs) = p ++ '_' :: joinU (q :: qs) from rfl]
      simp

theorem joinU_head?_of_ne (p : List Char) (ps : List (List Char)) (hp : p ≠ []) :
    (joinU (p :: ps)).head? = p.head? := by
  cases ps with
  | nil => rfl
  | cons q qs =>
    rw [show joinU (p :: q :: qs) = p ++ '_' :: joinU (q :: qs) from rfl, List.head?_append]
    cases p with
    | nil => exact absurd rfl hp
    | cons a p' => rfl

theorem joinU_getLast (ps : List (List Char)) (h : ∀ p ∈ ps, p ≠ []) :
    ∀ a, (joinU ps).getLast? = some a → ∃ p ∈ ps, p.getLast? = some a := by
  induction ps with
  | nil => intro a ha; simp [joinU] at ha
  | cons p ps' ih =>
    intro a ha
    cases ps' with
    | nil => exact ⟨p, List.mem_cons_self p [], ha⟩
    | cons q qs =>
      rw [show joinU (p :: q :: qs) = p ++ '_' :: joinU (q :: qs) from rfl,
        List.getLast?_append] at ha
      have hjoin : joinU (q :: qs) ≠ [] :=
        joinU_ne_nil _ (by simp) (fun r hr => h r (List.mem_cons_of_mem p hr))
      obtain ⟨b, hb⟩ : ∃ b, (joinU (q :: qs)).getLast? = some b := by
        cases hgl : (joinU (q :: qs)).getLast? with
        | none => exact absurd (List.getLast?_eq_none_iff.mp hgl) hjoin
        | some b => exact ⟨b, rfl⟩
      rw [List.getLast?_cons, hb] at ha
      simp only [Option.getD_some, Option.or_some, Option.some.injEq] at ha
      obtain ⟨r, hr, har⟩ :=
        ih (fun r hr => h r (List.mem_cons_of_mem p hr)) b hb
      exact ⟨r, List.mem_cons_of_mem p hr, ha ▸ har⟩

theorem chain'_of_not_mem_underscore (l : List Char) (h : '_' ∉ l) :
    l.Chain' (fun a b => a ≠ '_' ∨ b ≠ '_') := by
  induction l with
  | nil => simp
  | cons a l' ih =>
    rw [List.chain'_cons']
    refine ⟨fun y _ => Or.inl (fun he => h (he ▸ List.mem_cons_self a l')), ?_⟩
    exact ih (fun hm => h (List.mem_cons_of_mem a hm))

theorem joinU_chain' (ps : List (List Char)) (h : ∀ p ∈ ps, p ≠ [] ∧ '_' ∉ p) :
    (joinU ps).Chain' (fun a b => a ≠ '_' ∨ b ≠ '_') := by
  induction ps with
  | nil => simp [joinU]
  | cons p ps' ih =>
    cases ps' with
    | nil => exact chain'_of_not_mem_underscore p (h p (List.mem_cons_self p [])).2
    | cons q qs =>
      rw [show joinU (p :: q :: qs) = p ++ '_' :: joinU (q :: qs) from rfl]
      have hrest : ∀ r ∈ q :: qs, r ≠ [] ∧ '_' ∉ r :=
        fun r hr => h r (List.mem_cons_of_mem p hr)
      rw [List.chain'_append]
      refine ⟨chain'_of_not_mem_underscore p (h p (List.mem_cons_self p _)).2, ?_, ?_⟩
      · rw [List.chain'_cons']
        refine ⟨?_, ih hrest⟩
        intro y hy
        rw [joinU_head?_of_ne q qs (hrest q (List.mem_cons_self q qs)).1] at hy
        exact Or.inr fun he =>
          (hrest q (List.mem_cons_self q qs)).2 (he ▸ mem_of_head?_eq hy)
      · intro x hx y hy
        simp only [List.head?_cons, Option.mem_def, Option.some.injEq] at hy
        exact Or.inl fun he =>
          (h p (List.mem_cons_self p _)).2 (he ▸ mem_of_getLast?_eq hx)

theorem sanitizedOf_parts (cs : List Char) :
    ∀ p ∈ (splitSep '_'
        (cs.map (fun c => if c.isAlphanum then c else '_'))).filter (fun p => p ≠ []),
      p ≠ [] ∧ '_' ∉ p ∧ ∀ a ∈ p, a.isAlphanum = true := by
  intro p hp
  have hmem := (List.mem_filter.mp hp).1
  have hne : p ≠ [] := by simpa using (List.mem_filter.mp hp).2
  have hnus : '_' ∉ p := splitSep_not_mem '_' _ p hmem
  refine ⟨hne, hnus, fun a ha => ?_⟩
  have hamap : a ∈ cs.map (fun c => if c.isAlphanum then c else '_') :=
    splitSep_mem_subset '_' _ p hmem a ha
  obtain ⟨c, _, hc⟩ := List.mem_map.mp hamap
  by_cases hcal : c.isAlphanum
  · rw [if_pos hcal] at hc
    exact hc ▸ hcal
  · rw [if_neg hcal] at hc
    exact absurd (hc ▸ ha) hnus

theorem sanitizedOf_chars (cs : List Char) :
    ∀ a ∈ sanitizedOf cs, a.isAlphanum = true ∨ a = '_' := by
  intro a ha
  rcases joinU_mem _ a ha with h | ⟨p, hp, hap⟩
  · exact Or.inr h
  · exact Or.inl ((sanitizedOf_parts cs p hp).2.2 a hap)

theorem sanitizedOf_head? (cs : List Char) :
    ∀ a, (sanitizedOf cs).head? = some a → a ≠ '_' ∧ a.isAlphanum = true := by
  intro a ha
  unfold sanitizedOf at ha
  cases hps : (splitSep '_'
      (cs.map (fun c => if c.isAlphanum then c else '_'))).filter (fun p => p ≠ []) with
  | nil => rw [hps] at ha; simp [joinU] at ha
  | cons p ps =>
    have hprops := sanitizedOf_parts cs p (hps ▸ List.mem_cons_self p ps)
    rw [hps, joinU_head?_of_ne p ps hprops.1] at ha
    have hmem := mem_of_head?_eq ha
    exact ⟨fun he => hprops.2.1 (he ▸ hmem), hprops.2.2 a hmem⟩

theorem sanitizedOf_getLast? (cs : List Char) :
    ∀ a, (sanitizedOf cs).getLast? = some a → a ≠ '_' := by
  intro a ha
  unfold sanitizedOf at ha
  obtain ⟨p, hp, hpl⟩ := joinU_getLast _ (fun p hp => (sanitizedOf_parts cs p hp).1) a ha
  exact fun he => (sanitizedOf_parts cs p hp).2.1 (he ▸ mem_of_getLast?_eq hpl)

theorem sanitizedOf_chain' (cs : List Char) :
    (sanitizedOf cs).Chain' (fun a b => a ≠ '_' ∨ b ≠ '_') :=
  joinU_chain' _ (fun p hp => ⟨(sanitizedOf_parts cs p hp).1, (sanitizedOf_parts cs p hp).2.1⟩)

/-- `sanitizeCore` is either the sanitized string (not starting with a
digit) or `'n'` prepended to a nonempty sanitized string starting with a
digit. -/
theorem sanitizeCore_cases (cs : List Char) :
    (sanitizeCore cs = sanitizedOf cs ∧
      ∀ a, (sanitizedOf cs).head? = some a → a.isDigit = false) ∨
    (sanitizeCore cs = 'n' :: sanitizedOf cs ∧ sanitizedOf cs ≠ []) := by
  unfold sanitizeCore
  cases hh : (sanitizedOf cs).head? with
  | none =>
    left
    constructor
    · simp [hh]
    · intro a ha
      exact absurd ha (by simp)
  | some c =>
    by_cases hd : c.isDigit
    · right
      constructor
      · simp [hh, hd]
      · intro he
        rw [he] at hh
        simp at hh
    · left
      constructor
      · simp [hh, hd]
      · intro a ha
        have hca : c = a := by injection ha
        subst hca
        simpa using hd

theorem sanitizeCore_chars (cs : List Char) :
    ∀ a ∈ sanitizeCore cs, a.isAlphanum = true ∨ a = '_' := by
  rcases sanitizeCore_cases cs with ⟨heq, _⟩ | ⟨heq, _⟩ <;> rw [heq]
  · exact sanitizedOf_chars cs
  · intro a ha
    rcases List.mem_cons.mp ha with ha | ha
    · subst ha; left; decide
    · exact sanitizedOf_chars cs a ha

theorem sanitizeCore_head? (cs : List Char) :
    ∀ a, (sanitizeCore cs).head? = some a → a.isAlpha = true := by
  rcases sanitizeCore_cases cs with ⟨heq, hnd⟩ | ⟨heq, _⟩ <;> rw [heq]
  · intro a ha
    have h1 := sanitizedOf_head? cs a ha
    have h2 := hnd a ha
    have := h1.2
    rw [Char.isAlphanum] at this
    rcases Bool.or_eq_true _ _ |>.mp this with h | h
    · exact h
    · rw [h2] at h; cases h
  · intro a ha
    simp only [List.head?_cons, Option.some.injEq] at ha
    subst ha
    decide

theorem sanitizeCore_head?_ne (cs : List Char) :
    ∀ a, (sanitizeCore cs).head? = some a → a ≠ '_' := by
  intro a ha he
  have := sanitizeCore_head? cs a ha
  rw [he] at this
  cases this

theorem sanitizeCore_getLast? (cs : List Char) :
    ∀ a, (sanitizeCore cs).getLast? = some a → a ≠ '_' := by
  rcases sanitizeCore_cases cs with ⟨heq, _⟩ | ⟨heq, hne⟩ <;> rw [heq]
  · exact sanitizedOf_getLast? cs
  · intro a ha
    obtain ⟨b, hb⟩ : ∃ b, (sanitizedOf cs).getLast? = some b := by
      cases hgl : (sanitizedOf cs).getLast? with
      | none => exact absurd (List.getLast?_eq_none_iff.mp hgl) hne
      | some b => exact ⟨b, rfl⟩
    rw [List.getLast?_cons, hb] at ha
    simp only [Option.getD_some, Option.some.injEq] at ha
    exact ha ▸ sanitizedOf_getLast? cs b hb

theorem sanitizeCore_chain' (cs : List Char) :
    (sanitizeCore cs).Chain' (fun a b => a ≠ '_' ∨ b ≠ '_') := by
  rcases sanitizeCore_cases cs with ⟨heq, _⟩ | ⟨heq, _⟩ <;> rw [heq]
  · exact sanitizedOf_chain' cs
  · rw [List.chain'_cons']
    exact ⟨fun y _ => Or.inl (by decide), sanitizedOf_chain' cs⟩

theorem generate_random_string_chars (n : Nat) (draws : List Nat) :
    ∀ a ∈ generate_random_string n draws, a.isAlphanum = true ∧ a ≠ '_' := by
  intro a ha
  obtain ⟨i, _, hi⟩ := List.mem_map.mp ha
  have hlt : i % CHARSET.length < CHARSET.length := Nat.mod_lt _ (by decide)
  have hmem : CHARSET.getD (i % CHARSET.length) 'a' ∈ CHARSET := by
    rw [List.getD_eq_getElem?_getD, List.getElem?_eq_getElem hlt]
    exact List.getElem_mem _
  have hall : ∀ c ∈ CHARSET, c.isAlphanum = true ∧ c ≠ '_' := by decide
  exact hi ▸ hall _ hmem

theorem rfindIdx_lt_length (c : Char) (l : List Char) (i : Nat)
    (h : rfindIdx c l = some i) : i < l.length := by
  induction l generalizing i with
  | nil => simp [rfindIdx] at h
  | cons a rest ih =>
    rw [rfindIdx] at h
    cases hr : rfindIdx c rest with
    | some j =>
      rw [hr] at h
      simp only [Option.some.injEq] at h
      subst h
      exact Nat.succ_lt_succ (ih j hr)
    | none =>
      rw [hr] at h
      by_cases hac : a = c
      · rw [if_pos hac] at h
        simp only [Option.some.injEq] at h
        subst h
        simp
      · rw [if_neg hac] at h
        cases h

theorem chain'_take {α : Type} {R : α → α → Prop} (l : List α) (n : Nat)
    (h : l.Chain' R) : (l.take n).Chain' R := by
  have happ : (l.take n ++ l.drop n).Chain' R := by rwa [List.take_append_drop]
  exact List.Chain'.left_of_append happ

theorem truncateStep_of_le (vs : List Char) (h : vs.length ≤ 63) : truncateStep vs = vs := by
  unfold truncateStep
  rw [if_neg (by omega)]

theorem truncateStep_gt (vs : List Char) (h : vs.length > 63) :
    truncateStep vs =
      match rfindIdx '_' (vs.take 63) with
      | some pos => if 0 < pos then vs.take pos else vs.take 63
      | none => vs.take 63 := by
  unfold truncateStep
  rw [if_pos h]

theorem truncateStep_gt_some (vs : List Char) (pos : Nat) (h : vs.length > 63)
    (hr : rfindIdx '_' (vs.take 63) = some pos) :
    truncateStep vs = if 0 < pos then vs.take pos else vs.take 63 := by
  rw [truncateStep_gt vs h, hr]

theorem truncateStep_gt_none (vs : List Char) (h : vs.length > 63)
    (hr : rfindIdx '_' (vs.take 63) = none) :
    truncateStep vs = vs.take 63 := by
  rw [truncateStep_gt vs h, hr]

theorem truncateStep_length_le (vs : List Char) : (truncateStep vs).length ≤ 63 := by
  by_cases h : vs.length > 63
  · cases hr : rfindIdx '_' (vs.take 63) with
    | none =>
      rw [truncateStep_gt_none vs h hr, List.length_take]
      exact min_le_left _ _
    | some pos =>
      have hpos : pos < (vs.take 63).length := rfindIdx_lt_length '_' _ pos hr
      rw [List.length_take] at hpos
      have hpos' : pos < 63 := lt_of_lt_of_le hpos (min_le_left _ _)
      rw [truncateStep_gt_some vs pos h hr]
      by_cases hp : 0 < pos
      · rw [if_pos hp, List.length_take]
        exact le_trans (min_le_left _ _) (by omega)
      · rw [if_neg hp, List.length_take]
        exact min_le_left _ _
  · rw [truncateStep_of_le vs (by omega)]
    omega

theorem truncateStep_head? (vs : List Char) : (truncateStep vs).head? = vs.head? := by
  by_cases h : vs.length > 63
  · cases hr : rfindIdx '_' (vs.take 63) with
    | none => rw [truncateStep_gt_none vs h hr, List.head?_take, if_neg (by omega)]
    | some pos =>
      rw [truncateStep_gt_some vs pos h hr]
      by_cases hp : 0 < pos
      · rw [if_pos hp, List.head?_take, if_neg (by omega)]
      · rw [if_neg hp, List.head?_take, if_neg (by omega)]
  · rw [truncateStep_of_le vs (by omega)]

theorem truncateStep_subset (vs : List Char) : truncateStep vs ⊆ vs := by
  by_cases h : vs.length > 63
  · cases hr : rfindIdx '_' (vs.take 63) with
    | none =>
      rw [truncateStep_gt_none vs h hr]
      exact List.take_subset 63 vs
    | some pos =>
      rw [truncateStep_gt_some vs pos h hr]
      by_cases hp : 0 < pos
      · rw [if_pos hp]; exact List.take_subset pos vs
      · rw [if_neg hp]; exact List.take_subset 63 vs
  · rw [truncateStep_of_le vs (by omega)]
    exact fun a ha => ha

theorem truncateStep_chain' (vs : List Char)
    (h : vs.Chain' (fun a b => a ≠ '_' ∨ b ≠ '_')) :
    (truncateStep vs).Chain' (fun a b => a ≠ '_' ∨ b ≠ '_') := by
  by_cases hl : vs.length > 63
  · cases hr : rfindIdx '_' (vs.take 63) with
    | none =>
      rw [truncateStep_gt_none vs hl hr]
      exact chain'_take vs 63 h
    | some pos =>
      rw [truncateStep_gt_some vs pos hl hr]
      by_cases hp : 0 < pos
      · rw [if_pos hp]; exact chain'_take vs pos h
      · rw [if_neg hp]; exact chain'_take vs 63 h
  · rw [truncateStep_of_le vs (by omega)]; exact h


theorem generate_random_string_length (n : Nat) (draws : List Nat) :
    (generate_random_string n draws).length ≤ n := by
  simp [generate_random_string]

/-! ### Claim theorems -/

theorem wrap32_eq_self (i : Int) (h1 : -(2 ^ 31) ≤ i) (h2 : i < 2 ^ 31) :
    wrap32 i = i := by
  unfold wrap32
  have hmod : (i + 2 ^ 31) % 2 ^ 32 = i + 2 ^ 31 :=
    Int.emod_eq_of_lt (by omega) (by omega)
  omega

theorem wrap64_eq_self (i : Int) (h1 : -(2 ^ 63) ≤ i) (h2 : i < 2 ^ 63) :
    wrap64 i = i := by
  unfold wrap64
  have hmod : (i + 2 ^ 63) % 2 ^ 64 = i + 2 ^ 63 :=
    Int.emod_eq_of_lt (by omega) (by omega)
  omega

/-- `convert_time64` succeeds whenever the split seconds/nanoseconds
components satisfy the `u32` and time-of-day bounds. -/
theorem convert_time64_eq_ok (unit : TimeUnit) (amount : Int)
    (hs0 : 0 ≤ rustDiv (timeUnitToMicros unit amount) 1000000)
    (hs32 : rustDiv (timeUnitToMicros unit amount) 1000000 < 2 ^ 32)
    (hn0 : 0 ≤ rustRem (timeUnitToMicros unit amount) 1000000 * 1000)
    (hn32 : rustRem (timeUnitToMicros unit amount) 1000000 * 1000 < 2 ^ 32)
    (hs86 : rustDiv (timeUnitToMicros unit amount) 1000000 < 86400)
    (hn2 : rustRem (timeUnitToMicros unit amount) 1000000 * 1000 < 2000000000) :
    convert_time64 unit amount =
      .ok (.str (chronoFormatTime (rustDiv (timeUnitToMicros unit amount) 1000000)
        (rustRem (timeUnitToMicros unit amount) 1000000 * 1000))) := by
  show (if 0 ≤ rustDiv (timeUnitToMicros unit amount) 1000000 &&
        rustDiv (timeUnitToMicros unit amount) 1000000 < 2 ^ 32 then
      if 0 ≤ rustRem (timeUnitToMicros unit amount) 1000000 * 1000 &&
          rustRem (timeUnitToMicros unit amount) 1000000 * 1000 < 2 ^ 32 then
        if rustDiv (timeUnitToMicros unit amount) 1000000 < 86400 &&
            rustRem (timeUnitToMicros unit amount) 1000000 * 1000 < 2000000000 then
          Except.ok (JsonValue.str
            (chronoFormatTime (rustDiv (timeUnitToMicros unit amount) 1000000)
              (rustRem (timeUnitToMicros unit amount) 1000000 * 1000)))
        else Except.error
          (KError.duckDBValueConversion "Failed to create NaiveTime")
      else Except.error
        (KError.duckDBValueConversion "Failed to convert nanoseconds: out of range")
    else Except.error
      (KError.duckDBValueConversion "Failed to convert seconds: out of range")) = _
  rw [if_pos (by simp only [Bool.and_eq_true, decide_eq_true_eq]; exact ⟨hs0, hs32⟩),
    if_pos (by simp only [Bool.and_eq_true, decide_eq_true_eq]; exact ⟨hn0, hn32⟩),
    if_pos (by simp only [Bool.and_eq_true, decide_eq_true_eq]; exact ⟨hs86, hn2⟩)]

theorem exceptBindOk {ε α β : Type} (a : α) (f : α → Except ε β) :
    (Except.ok a >>= f) = f a := rfl

theorem exceptMapOk {ε α β : Type} (a : α) (f : α → β) :
    (Except.ok a : Except ε α).map f = .ok (f a) := rfl

/-- Master lemma for C7, by the codec's functional induction: every value
without a temporal component and with stringifiable map keys converts
successfully, and a key of accepted shape converts to a JSON value the
key stringification accepts. -/
theorem codec_ok_of_riskFree :
    ∀ v : DValue, riskFree v = true →
      ∃ j, duckdb_value_to_json_value v = .ok j ∧
        (keyOk v = true → stringifiableJson j = true) := by
  refine duckdb_value_to_json_value.induct
    (fun v => riskFree v = true →
      ∃ j, duckdb_value_to_json_value v = .ok j ∧
        (keyOk v = true → stringifiableJson j = true))
    (fun es acc => riskFreePairs es = true → ∃ out, convert_map es acc = .ok out)
    (fun fs acc => riskFreeFields fs = true → ∃ out, convert_struct fs acc = .ok out)
    (fun l => riskFreeList l = true → ∃ js, convert_list l = .ok js)
    ?_ ?_ ?_ ?_ ?_ ?_ ?_ ?_ ?_ ?_ ?_ ?_ ?_ ?_ ?_ ?_ ?_ ?_ ?_ ?_ ?_ ?_ ?_ ?_ ?_ ?_
    ?_ ?_ ?_ ?_ ?_ ?_
  · exact fun _ => ⟨_, rfl, fun _ => rfl⟩
  · exact fun b _ => ⟨_, rfl, fun _ => rfl⟩
  · exact fun i _ => ⟨_, rfl, fun _ => rfl⟩
  · exact fun n _ => ⟨_, rfl, fun _ => rfl⟩
  · exact fun i _ => ⟨_, rfl, fun _ => rfl⟩
  · exact fun n _ => ⟨_, rfl, fun _ => rfl⟩
  · exact fun i _ => ⟨_, rfl, fun _ => rfl⟩
  · exact fun n _ => ⟨_, rfl, fun _ => rfl⟩
  · exact fun i _ => ⟨_, rfl, fun _ => rfl⟩
  · exact fun n _ => ⟨_, rfl, fun _ => rfl⟩
  · exact fun f _ => ⟨float_to_json f, rfl, fun _ => by cases f <;> rfl⟩
  · exact fun f _ => ⟨float_to_json f, rfl, fun _ => by cases f <;> rfl⟩
  · exact fun s _ => ⟨_, rfl, fun _ => rfl⟩
  · exact fun s _ => ⟨_, rfl, fun _ => rfl⟩
  · exact fun bytes _ => ⟨_, rfl, fun hk => Bool.noConfusion hk⟩
  · intro unit amount h
    cases unit with
    | nanosecond => exact ⟨_, rfl, fun _ => rfl⟩
    | second =>
      have h' : chronoTimestampInRange amount = true := h
      refine ⟨.str (chronoFormatPlus .second amount), ?_, fun _ => rfl⟩
      show convert_timestamp .second amount = _
      unfold convert_timestamp
      rw [if_pos h']
    | millisecond =>
      have h' : chronoTimestampInRange (Int.fdiv amount 1000) = true := h
      refine ⟨.str (chronoFormatPlus .millisecond amount), ?_, fun _ => rfl⟩
      show convert_timestamp .millisecond amount = _
      unfold convert_timestamp
      rw [if_pos h']
    | microsecond =>
      have h' : chronoTimestampInRange (Int.fdiv amount 1000000) = true := h
      refine ⟨.str (chronoFormatPlus .microsecond amount), ?_, fun _ => rfl⟩
      show convert_timestamp .microsecond amount = _
      unfold convert_timestamp
      rw [if_pos h']
  · intro days h
    have h' : chronoDaysInRange (wrap32 (days + 719163)) = true := h
    refine ⟨.str (chronoFormatDate (wrap32 (days + 719163))), ?_, fun _ => rfl⟩
    show convert_date32 days = _
    show (if chronoDaysInRange (wrap32 (days + 719163)) then
        Except.ok (JsonValue.str (chronoFormatDate (wrap32 (days + 719163))))
      else Except.error (KError.duckDBValueConversion "Failed to convert Date32")) = _
    rw [if_pos h']
  · intro unit amount h
    have h' : time64InRange unit amount = true := h
    simp only [time64InRange, Bool.and_eq_true, decide_eq_true_eq] at h'
    obtain ⟨⟨⟨hs0, hs32⟩, hn0, hn32⟩, hs86, hn2⟩ := h'
    exact ⟨_, convert_time64_eq_ok unit amount hs0 hs32 hn0 hn32 hs86 hn2, fun _ => rfl⟩
  · exact fun months days nanos _ => ⟨_, rfl, fun hk => Bool.noConfusion hk⟩
  · intro elems ih h
    obtain ⟨js, hjs⟩ := ih h
    exact ⟨.arr js, by simp only [duckdb_value_to_json_value, hjs, exceptMapOk],
      fun hk => Bool.noConfusion hk⟩
  · intro elems ih h
    obtain ⟨js, hjs⟩ := ih h
    exact ⟨.arr js, by simp only [duckdb_value_to_json_value, hjs, exceptMapOk],
      fun hk => Bool.noConfusion hk⟩
  · intro fields ih h
    obtain ⟨out, hout⟩ := ih h
    exact ⟨.obj out, by simp only [duckdb_value_to_json_value, hout, exceptMapOk],
      fun hk => Bool.noConfusion hk⟩
  · intro v ih h
    obtain ⟨j, hj, hks⟩ := ih h
    exact ⟨j, by simp only [duckdb_value_to_json_value, hj], fun hk => hks hk⟩
  · intro entries ih h
    obtain ⟨out, hout⟩ := ih h
    exact ⟨.obj out, by simp only [duckdb_value_to_json_value, hout, exceptMapOk],
      fun hk => Bool.noConfusion hk⟩
  · exact fun i _ => ⟨_, rfl, fun _ => rfl⟩
  · exact fun repr _ => ⟨_, rfl, fun _ => rfl⟩
  · exact fun _ => ⟨[], rfl⟩
  · intro v rest ihv ihrest h
    rw [riskFreeList, Bool.and_eq_true] at h
    obtain ⟨j, hj, -⟩ := ihv h.1
    obtain ⟨js, hjs⟩ := ihrest h.2
    exact ⟨j :: js, by simp only [convert_list, hj, exceptBindOk, hjs]⟩
  · exact fun acc _ => ⟨acc, rfl⟩
  · intro k v rest acc ihv ihrest h
    rw [riskFreeFields, Bool.and_eq_true] at h
    obtain ⟨j, hj, -⟩ := ihv h.1
    obtain ⟨out, hout⟩ := ihrest j h.2
    exact ⟨out, by simp only [convert_struct, hj, exceptBindOk, hout]⟩
  · exact fun acc _ => ⟨acc, rfl⟩
  · intro k v rest acc ihk ihv ihm h
    rw [riskFreePairs] at h
    simp only [Bool.and_eq_true] at h
    obtain ⟨⟨⟨hkOk, hkRF⟩, hvRF⟩, hrest⟩ := h
    obtain ⟨kj, hkj, hkstr⟩ := ihk hkRF
    obtain ⟨vj, hvj, -⟩ := ihv hvRF
    have hstr := hkstr hkOk
    cases kj with
    | null =>
      obtain ⟨out, hout⟩ := ihm "null" vj hrest
      exact ⟨out, by simp only [convert_map, hkj, exceptBindOk, hvj, hout]⟩
    | bool b =>
      obtain ⟨out, hout⟩ := ihm (rustBoolString b) vj hrest
      exact ⟨out, by simp only [convert_map, hkj, exceptBindOk, hvj, hout]⟩
    | intNum i =>
      obtain ⟨out, hout⟩ := ihm (toString i) vj hrest
      exact ⟨out, by simp only [convert_map, hkj, exceptBindOk, hvj, hout]⟩
    | floatNum q =>
      obtain ⟨out, hout⟩ := ihm (renderFiniteDouble q) vj hrest
      exact ⟨out, by simp only [convert_map, hkj, exceptBindOk, hvj, hout]⟩
    | str s =>
      obtain ⟨out, hout⟩ := ihm s vj hrest
      exact ⟨out, by simp only [convert_map, hkj, exceptBindOk, hvj, hout]⟩
    | arr elems => exact absurd hstr (Bool.noConfusion ·)
    | obj fields => exact absurd hstr (Bool.noConfusion ·)

/-- C2: the claim that every unsigned fixed-width integer converts to a
JSON number equal to the value is violated by the code: the codec casts
each unsigned value to the signed type of the same width, so the unsigned
8-bit value 255 converts to the JSON number -1 (and likewise at the other
widths).  This evaluates the embedded codec at the failing inputs. -/
theorem unsigned_codec_wraps_to_negative :
    duckdb_value_to_json_value (.uTinyInt 255) = .ok (.intNum (-1)) ∧
    duckdb_value_to_json_value (.uSmallInt 65535) = .ok (.intNum (-1)) ∧
    duckdb_value_to_json_value (.uInt 4294967295) = .ok (.intNum (-1)) ∧
    duckdb_value_to_json_value (.uBigInt 18446744073709551615) = .ok (.intNum (-1)) ∧
    duckdb_value_to_json_value (.uTinyInt 128) = .ok (.intNum (-128)) :=
  ⟨rfl, rfl, rfl, rfl, rfl⟩

/-- C8: `drop_table` ignores the outcome of `detach_table` entirely (the
result is the same for any two detach outcomes), succeeds whenever the
file removal succeeds, and surfaces a removal failure as a `FileSystem`
error carrying the path `<storage_dir>/<name>.db` — so dropping a dataset
whose backing file is already gone is an error. -/
theorem drop_table_detach_swallowed_remove_fatal :
    (∀ (d₁ d₂ : Except KError Unit) (r : Except IoError Unit) (dir n : String),
      drop_table d₁ r dir n = drop_table d₂ r dir n) ∧
    (∀ (d : Except KError Unit) (dir n : String),
      drop_table d (.ok ()) dir n = .ok ()) ∧
    (∀ (d : Except KError Unit) (e : IoError) (dir n : String),
      drop_table d (.error e) dir n =
        .error (.fileSystem e (dir ++ "/" ++ n ++ ".db"))) :=
  ⟨fun _ _ r _ _ => by cases r <;> rfl, fun _ _ _ => rfl, fun _ _ _ _ => rfl⟩

/-- C9: `build_dsn` omits the `?` entirely when no tuning parameter is
set, never serializes the pool size, and on the concrete scenario
(`/tmp/karna/main.db`, memory limit 2 GB, pool size 1) produces exactly
`/tmp/karna/main.db?max_memory_limit=2`. -/
theorem build_dsn_only_set_params :
    (∀ (dsn : String) (bq : List String) (fp sp : String) (ps : Option Nat),
      Config.build_dsn ⟨dsn, none, none, none, bq, fp, sp, ps⟩ = dsn) ∧
    (∀ (c : Config) (p : Option Nat),
      Config.build_dsn { c with pool_size := p } = Config.build_dsn c) ∧
    ((do
        let c ← Config.new "/tmp/karna/main.db"
        let c ← c.with_memory_limit_gb 2
        let c ← c.with_pool_size 1
        pure c.build_dsn : Except KError String) =
      .ok "/tmp/karna/main.db?max_memory_limit=2") :=
  ⟨fun _ _ _ _ _ => rfl, fun c _ => by cases c ; rfl, rfl⟩

/-- C10: for extension `tsv` with an empty override map the generated
`read_csv` call renders `header = 'true'`, `delimiter = '\t'`,
`auto_detect = 'true'` and `sample_size = '1000'`; and for every override
map, merging replaces defaults key-by-key (the merged map binds a key to
its last override when one exists, and to the format default
otherwise). -/
theorem ingestion_defaults_and_overrides :
    (("header", "true") ∈ merge_params (FileFormat.default_params .tsv) [] ∧
     ("delimiter", "\t") ∈ merge_params (FileFormat.default_params .tsv) [] ∧
     ("auto_detect", "true") ∈ merge_params (FileFormat.default_params .tsv) [] ∧
     ("sample_size", "1000") ∈ merge_params (FileFormat.default_params .tsv) []) ∧
    (generate_read_csv_statement "data.tsv" (merge_params (FileFormat.default_params .tsv) []) =
      "read_csv('data.tsv', auto_detect = 'true', delimiter = '\t', " ++
        "header = 'true', sample_size = '1000')") ∧
    (∀ (fmt : FileFormat) (overrides : List (String × String)) (k : String),
      lookupA (merge_params (FileFormat.default_params fmt) overrides) k =
        (lookupLast overrides k).or (lookupA (FileFormat.default_params fmt) k)) :=
  ⟨⟨by decide, by decide, by decide, by decide⟩, rfl,
    fun fmt overrides k => by
      unfold merge_params
      exact lookupA_foldl_sortedInsert overrides (FileFormat.default_params fmt) k⟩

/-- C3 (counterexample): the startup scan deviates from the claim on two
counts — `main2.db` is excluded (the code tests `starts_with("main")`,
not equality with `main.db`), and the alias for `a.dbx.db` is `ax`
(`replace` removes *every* `.db` occurrence, not just the trailing
suffix), where the claim demands the aliases `["main2", "a.dbx"]`.  No
`.wal` sibling exists, so the claim's wal clause is vacuous here. -/
theorem db_scan_counterexample :
    list_db_files "/data" [⟨"main2.db", false⟩, ⟨"a.dbx.db", false⟩] = ["ax"] ∧
    claimed_db_aliases [⟨"main2.db", false⟩, ⟨"a.dbx.db", false⟩] = ["main2", "a.dbx"] ∧
    (["ax"] : List String) ≠ ["main2", "a.dbx"] :=
  ⟨rfl, rfl, by decide⟩

/-- C3 (amended): the startup scan attaches exactly the non-directory
entries whose file name ends with `.db` and does not start with `main`
(so every `main*.db` is excluded, not just `main.db`); `.wal` siblings
are never consulted (the code's `path.ends_with(file_name + ".wal")`
test is vacuously false); and the alias is the file name with every
occurrence of `.db` removed, not only the trailing suffix. -/
theorem db_scan_characterization (dir : String) (entries : List DirEntry)
    (h : ∀ e ∈ entries, e.name.toList ≠ [] ∧ '/' ∉ e.name.toList) :
    list_db_files dir entries =
      (entries.filter (fun e =>
          !e.isDir && (rustEndsWith e.name ".db" && !(rustStartsWith e.name "main")))).map
        (fun e => rustReplace e.name ".db" "") := by
  unfold list_db_files
  rw [list_db_files_loop_eq dir entries h []]
  rfl

/-- C3 (witness for `db_scan_characterization`): a directory with a
dataset file, the primary `main.db`, and a subdirectory. -/
theorem db_scan_characterization_witness :
    list_db_files "/data" [⟨"users.db", false⟩, ⟨"main.db", false⟩, ⟨"sub.db", true⟩] =
      ["users"] :=
  (db_scan_characterization "/data"
    [⟨"users.db", false⟩, ⟨"main.db", false⟩, ⟨"sub.db", true⟩] (by decide)).trans
    (by decide)

/-- C6: for every (non-empty) input string, the sanitized identifier has
length at most 63, is non-empty, starts with a letter or underscore,
contains only ASCII alphanumerics and underscores, never contains two
consecutive underscores, and the portion before the random suffix
(`sanitizeCore`) has no leading and no trailing underscore. -/
theorem sanitize_identifier_valid (filename : String) (draws : List Nat)
    (hne : filename ≠ "") :
    (sanitize_to_sql_name filename draws).length ≤ 63 ∧
    (sanitize_to_sql_name filename draws).toList ≠ [] ∧
    (∀ a, (sanitize_to_sql_name filename draws).toList.head? = some a →
      a.isAlpha = true ∨ a = '_') ∧
    (∀ a ∈ (sanitize_to_sql_name filename draws).toList, a.isAlphanum = true ∨ a = '_') ∧
    (sanitize_to_sql_name filename draws).toList.Chain' (fun a b => a ≠ '_' ∨ b ≠ '_') ∧
    (∀ a, (sanitizeCore filename.toList).head? = some a → a ≠ '_') ∧
    (∀ a, (sanitizeCore filename.toList).getLast? = some a → a ≠ '_') := by
  have _ := hne
  have hout : (sanitize_to_sql_name filename draws).toList =
      truncateStep (sanitizeCore filename.toList ++
        '_' :: generate_random_string 6 draws) := rfl
  have hlen : (sanitize_to_sql_name filename draws).length =
      (truncateStep (sanitizeCore filename.toList ++
        '_' :: generate_random_string 6 draws)).length := rfl
  have hsfx := generate_random_string_chars 6 draws
  have hsfx_chain : (('_' :: generate_random_string 6 draws) : List Char).Chain'
      (fun a b => a ≠ '_' ∨ b ≠ '_') := by
    rw [List.chain'_cons']
    refine ⟨fun y hy => Or.inr (hsfx y (mem_of_head?_eq hy)).2, ?_⟩
    exact chain'_of_not_mem_underscore _ (fun hm => (hsfx '_' hm).2 rfl)
  have hvs_chain : (sanitizeCore filename.toList ++
      '_' :: generate_random_string 6 draws).Chain' (fun a b => a ≠ '_' ∨ b ≠ '_') := by
    rw [List.chain'_append]
    refine ⟨sanitizeCore_chain' filename.toList, hsfx_chain, ?_⟩
    intro x hx y _
    exact Or.inl (sanitizeCore_getLast? filename.toList x hx)
  have hhead : ∀ a, (sanitize_to_sql_name filename draws).toList.head? = some a →
      a.isAlpha = true ∨ a = '_' := by
    intro a ha
    rw [hout, truncateStep_head?] at ha
    cases hcore : sanitizeCore filename.toList with
    | nil =>
      rw [hcore] at ha
      simp only [List.nil_append, List.head?_cons, Option.some.injEq] at ha
      exact Or.inr ha.symm
    | cons c rest =>
      rw [hcore] at ha
      simp only [List.cons_append, List.head?_cons, Option.some.injEq] at ha
      exact Or.inl (ha ▸ sanitizeCore_head? filename.toList c (by rw [hcore]; rfl))
  refine ⟨?_, ?_, hhead, ?_, ?_, sanitizeCore_head?_ne filename.toList,
    sanitizeCore_getLast? filename.toList⟩
  · rw [hlen]
    exact truncateStep_length_le _
  · intro hemp
    have hh : (sanitize_to_sql_name filename draws).toList.head? = none := by
      rw [hemp]; rfl
    rw [hout, truncateStep_head?] at hh
    cases hcore : sanitizeCore filename.toList with
    | nil => rw [hcore] at hh; cases hh
    | cons c rest => rw [hcore] at hh; cases hh
  · intro a ha
    rw [hout] at ha
    have hmem := truncateStep_subset _ ha
    rcases List.mem_append.mp hmem with hm | hm
    · exact sanitizeCore_chars filename.toList a hm
    · rcases List.mem_cons.mp hm with hm | hm
      · exact Or.inr hm
      · exact Or.inl (hsfx a hm).1
  · rw [hout]
    exact truncateStep_chain' _ hvs_chain

/-- C6 (witness for `sanitize_identifier_valid`): instantiated at the
input `"9 data sets!"`. -/
theorem sanitize_identifier_valid_witness :
    (sanitize_to_sql_name "9 data sets!" [0, 1, 2, 3, 4, 5]).length ≤ 63 ∧
    (sanitize_to_sql_name "9 data sets!" [0, 1, 2, 3, 4, 5]).toList ≠ [] ∧
    (∀ a, (sanitize_to_sql_name "9 data sets!" [0, 1, 2, 3, 4, 5]).toList.head? = some a →
      a.isAlpha = true ∨ a = '_') ∧
    (∀ a ∈ (sanitize_to_sql_name "9 data sets!" [0, 1, 2, 3, 4, 5]).toList,
      a.isAlphanum = true ∨ a = '_') ∧
    (sanitize_to_sql_name "9 data sets!" [0, 1, 2, 3, 4, 5]).toList.Chain'
      (fun a b => a ≠ '_' ∨ b ≠ '_') ∧
    (∀ a, (sanitizeCore "9 data sets!".toList).head? = some a → a ≠ '_') ∧
    (∀ a, (sanitizeCore "9 data sets!".toList).getLast? = some a → a ≠ '_') :=
  sanitize_identifier_valid "9 data sets!" [0, 1, 2, 3, 4, 5] (by decide)

/-- C5 (counterexample): for a 60-character input the sanitized name plus
suffix block exceeds 63 characters, and the truncation step cuts back to
the last underscore — the separator introduced for the random suffix —
deleting the suffix entirely: two calls with visibly different random
suffixes return the *same* identifier, which contains neither suffix. -/
theorem suffix_lost_on_truncation_counterexample :
    generate_random_string 6 [0, 1, 2, 3, 4, 5] ≠
      generate_random_string 6 [6, 7, 8, 9, 10, 11] ∧
    sanitize_to_sql_name (String.mk (List.replicate 60 'a')) [0, 1, 2, 3, 4, 5] =
      sanitize_to_sql_name (String.mk (List.replicate 60 'a')) [6, 7, 8, 9, 10, 11] ∧
    sanitize_to_sql_name (String.mk (List.replicate 60 'a')) [0, 1, 2, 3, 4, 5] =
      String.mk (List.replicate 60 'a') :=
  ⟨by decide, rfl, rfl⟩

/-- C5 (amended): the random suffix survives only when no truncation
occurs — whenever the sanitized core plus the 7-character suffix block
fits in the 63-character limit, the identifier is exactly
`core ++ "_" ++ suffix`, and then two calls whose random suffixes differ
return different identifiers; for longer inputs the truncation step can
remove the suffix (see the counterexample), so distinctness is not
guaranteed in general. -/
theorem suffix_kept_when_no_truncation (filename : String) (draws draws' : List Nat)
    (hfit : (sanitizeCore filename.toList).length + 7 ≤ 63) :
    sanitize_to_sql_name filename draws =
      String.mk (sanitizeCore filename.toList ++ '_' :: generate_random_string 6 draws) ∧
    (generate_random_string 6 draws ≠ generate_random_string 6 draws' →
      sanitize_to_sql_name filename draws ≠ sanitize_to_sql_name filename draws') := by
  have hkeep : ∀ ds : List Nat,
      sanitize_to_sql_name filename ds =
        String.mk (sanitizeCore filename.toList ++ '_' :: generate_random_string 6 ds) := by
    intro ds
    unfold sanitize_to_sql_name
    show String.mk (truncateStep
      (sanitizeCore filename.toList ++ '_' :: generate_random_string 6 ds)) = _
    rw [truncateStep_of_le]
    have h6 := generate_random_string_length 6 ds
    simp only [List.length_append, List.length_cons]
    omega
  refine ⟨hkeep draws, fun hdiff heq => hdiff ?_⟩
  rw [hkeep draws, hkeep draws'] at heq
  have hl := congrArg String.toList heq
  simp only [String.toList] at hl
  have := List.append_cancel_left hl
  exact List.cons.inj this |>.2

/-- C5 (witness for `suffix_kept_when_no_truncation`): a short input whose
identifiers differ when the random draws differ. -/
theorem suffix_kept_when_no_truncation_witness :
    sanitize_to_sql_name "abc" [0, 1, 2, 3, 4, 5] ≠
      sanitize_to_sql_name "abc" [6, 7, 8, 9, 10, 11] :=
  (suffix_kept_when_no_truncation "abc" [0, 1, 2, 3, 4, 5] [6, 7, 8, 9, 10, 11]
    (by decide)).2 (by decide)

/-- C1 (counterexample): a row containing a map whose key is a list — a
value the codec rejects with a conversion error, not a NaN best-effort
case — is nonetheless returned successfully by the row/query path, with
JSON null silently substituted for the unconvertible value, instead of the
query aborting with that error. -/
theorem conversion_error_swallowed_counterexample :
    (duckdb_value_to_json_value (.map [(.list [], .null)])).isOk = false ∧
    duckdb_row_to_json [.map [(.list [], .null)]] = .ok [.null] ∧
    query_rows ["c"] [[.map [(.list [], .null)]]] = .ok [[("c", .null)]] :=
  ⟨rfl, rfl, rfl⟩

/-- C1 (amended): value-conversion errors never abort a query.
`duckdb_row_to_json` maps every value through the codec and replaces any
conversion error by JSON null (`convertOrNull`), and `query` therefore
materializes every row successfully; only row-access (`row.get`) failures,
outside the codec, can abort. -/
theorem conversion_errors_substituted_not_aborting :
    (∀ row : List DValue, duckdb_row_to_json row = .ok (row.map convertOrNull)) ∧
    (∀ (names : List String) (rows : List (List DValue)),
      query_rows names rows =
        .ok (rows.map (fun r => hashMapOfList (names.zip (r.map convertOrNull))))) :=
  ⟨duckdb_row_to_json_eq, query_rows_eq⟩

/-- C4 (counterexample): the per-row mapping returned by `query` is a Rust
`HashMap`, which does not preserve schema order; with schema columns
`["b", "a"]` the materialized row's entries are not in schema order
(represented canonically, the hash map lists `"a"` before `"b"`), while
the claimed ordered mapping would keep `["b", "a"]`. -/
theorem row_mapping_not_schema_ordered :
    (query_rows ["b", "a"] [[.int 1, .int 2]]).map
        (fun out => out.map (fun row => row.map Prod.fst)) = .ok [["a", "b"]] ∧
    (claimed_query_rows ["b", "a"] [[.int 1, .int 2]]).map
        (fun row => row.map Prod.fst) = [["b", "a"]] ∧
    (["a", "b"] : List String) ≠ ["b", "a"] :=
  ⟨rfl, rfl, by decide⟩

/-- C4 (amended): each result row is an *unordered* hash mapping from
column name (taken from the prepared statement's schema) to its converted
value — looking up the i-th schema column in the row yields the converted
i-th column value — and a statement producing zero rows yields the empty
sequence of rows, not an error. -/
theorem query_row_unordered_mapping :
    (∀ names : List String, query_rows names [] = .ok []) ∧
    (∀ (names : List String) (vals : List DValue) (i : Nat),
      names.Nodup → ∀ (hi : i < names.length) (hv : i < vals.length),
      ∃ rowOut, query_rows names [vals] = .ok [rowOut] ∧
        lookupA rowOut names[i] = some (convertOrNull vals[i])) := by
  constructor
  · intro names
    rw [query_rows_eq]
    rfl
  · intro names vals i hn hi hv
    refine ⟨hashMapOfList (names.zip (vals.map convertOrNull)), ?_, ?_⟩
    · rw [query_rows_eq]
      rfl
    · rw [lookupA_hashMapOfList]
      have hx : i < (vals.map convertOrNull).length := by simpa using hv
      have := lookupLast_zip_nodup names (vals.map convertOrNull) i hn hi hx
      rw [this]
      congr 1
      simp

/-- C4 (witness for `query_row_unordered_mapping`): instantiated at the
two-column schema `["a", "b"]` and the row `[7, 8]`. -/
theorem query_row_unordered_mapping_witness :
    ∃ rowOut, query_rows ["a", "b"] [[.int 7, .int 8]] = .ok [rowOut] ∧
      lookupA rowOut "a" = some (convertOrNull (.int 7)) := by
  have h := query_row_unordered_mapping.2 ["a", "b"] [.int 7, .int 8] 0
    (by decide) (by decide) (by decide)
  simpa using h

theorem codec_timestamp_second_ok (amount : Int) (h1 : -8334601228800 ≤ amount)
    (h2 : amount ≤ 8210266876799) :
    (duckdb_value_to_json_value (.timestamp .second amount)).isOk = true := by
  show (convert_timestamp .second amount).isOk = true
  unfold convert_timestamp
  rw [if_pos (show chronoTimestampInRange amount = true by
    simp only [chronoTimestampInRange, Bool.and_eq_true, decide_eq_true_eq]
    exact ⟨h1, h2⟩)]
  rfl

theorem codec_timestamp_millisecond_ok (amount : Int)
    (h1 : -8334601228800000 ≤ amount) (h2 : amount ≤ 8210266876799999) :
    (duckdb_value_to_json_value (.timestamp .millisecond amount)).isOk = true := by
  have hf : Int.fdiv amount 1000 = amount / 1000 := Int.fdiv_eq_ediv amount (by norm_num)
  have hlo : -8334601228800 ≤ amount / 1000 :=
    (Int.le_ediv_iff_mul_le (by norm_num)).mpr (by omega)
  have hhi : amount / 1000 ≤ 8210266876799 := by
    have hlt : amount / 1000 < 8210266876800 :=
      (Int.ediv_lt_iff_lt_mul (by norm_num)).mpr (by omega)
    omega
  show (convert_timestamp .millisecond amount).isOk = true
  unfold convert_timestamp
  rw [if_pos (show chronoTimestampInRange (Int.fdiv amount 1000) = true by
    rw [hf]
    simp only [chronoTimestampInRange, Bool.and_eq_true, decide_eq_true_eq]
    exact ⟨hlo, hhi⟩)]
  rfl

theorem codec_timestamp_microsecond_ok (amount : Int)
    (h1 : -8334601228800000000 ≤ amount) (h2 : amount ≤ 8210266876799999999) :
    (duckdb_value_to_json_value (.timestamp .microsecond amount)).isOk = true := by
  have hf : Int.fdiv amount 1000000 = amount / 1000000 :=
    Int.fdiv_eq_ediv amount (by norm_num)
  have hlo : -8334601228800 ≤ amount / 1000000 :=
    (Int.le_ediv_iff_mul_le (by norm_num)).mpr (by omega)
  have hhi : amount / 1000000 ≤ 8210266876799 := by
    have hlt : amount / 1000000 < 8210266876800 :=
      (Int.ediv_lt_iff_lt_mul (by norm_num)).mpr (by omega)
    omega
  show (convert_timestamp .microsecond amount).isOk = true
  unfold convert_timestamp
  rw [if_pos (show chronoTimestampInRange (Int.fdiv amount 1000000) = true by
    rw [hf]
    simp only [chronoTimestampInRange, Bool.and_eq_true, decide_eq_true_eq]
    exact ⟨hlo, hhi⟩)]
  rfl

theorem codec_date32_ok (days : Int) (h1 : -96465287 ≤ days) (h2 : days ≤ 95026933) :
    (duckdb_value_to_json_value (.date32 days)).isOk = true := by
  have hw : wrap32 (days + 719163) = days + 719163 :=
    wrap32_eq_self _ (by omega) (by omega)
  show (convert_date32 days).isOk = true
  show ((if chronoDaysInRange (wrap32 (days + 719163)) then
      Except.ok (JsonValue.str (chronoFormatDate (wrap32 (days + 719163))))
    else Except.error
      (KError.duckDBValueConversion "Failed to convert Date32")) :
    Except KError JsonValue).isOk = true
  rw [if_pos (show chronoDaysInRange (wrap32 (days + 719163)) = true by
    rw [hw]
    simp only [chronoDaysInRange, Bool.and_eq_true, decide_eq_true_eq]
    omega)]
  rfl

/-- `convert_time64` succeeds for every value whose microsecond offset
lies within one day. -/
theorem codec_time64_ok_of_micros (unit : TimeUnit) (amount : Int)
    (h0 : 0 ≤ timeUnitToMicros unit amount)
    (h1 : timeUnitToMicros unit amount < 86400000000) :
    (duckdb_value_to_json_value (.time64 unit amount)).isOk = true := by
  have hsec : rustDiv (timeUnitToMicros unit amount) 1000000 =
      timeUnitToMicros unit amount / 1000000 := Int.tdiv_eq_ediv h0 (by norm_num)
  have hs0 : 0 ≤ rustDiv (timeUnitToMicros unit amount) 1000000 := by
    rw [hsec]
    exact Int.ediv_nonneg h0 (by norm_num)
  have hs86 : rustDiv (timeUnitToMicros unit amount) 1000000 < 86400 := by
    rw [hsec]
    exact (Int.ediv_lt_iff_lt_mul (by norm_num)).mpr (by omega)
  have hr0 : 0 ≤ rustRem (timeUnitToMicros unit amount) 1000000 :=
    Int.tmod_nonneg _ h0
  have hrlt : rustRem (timeUnitToMicros unit amount) 1000000 < 1000000 :=
    Int.tmod_lt_of_pos _ (by norm_num)
  show (convert_time64 unit amount).isOk = true
  rw [convert_time64_eq_ok unit amount hs0 (by omega) (by omega) (by omega) hs86 (by omega)]
  rfl

theorem codec_time64_second_ok (amount : Int) (h1 : 0 ≤ amount) (h2 : amount < 86400) :
    (duckdb_value_to_json_value (.time64 .second amount)).isOk = true := by
  have hw : timeUnitToMicros .second amount = amount * 1000000 :=
    wrap64_eq_self _ (by omega) (by omega)
  apply codec_time64_ok_of_micros <;> rw [hw] <;> omega

theorem codec_time64_millisecond_ok (amount : Int) (h1 : 0 ≤ amount)
    (h2 : amount < 86400000) :
    (duckdb_value_to_json_value (.time64 .millisecond amount)).isOk = true := by
  have hw : timeUnitToMicros .millisecond amount = amount * 1000 :=
    wrap64_eq_self _ (by omega) (by omega)
  apply codec_time64_ok_of_micros <;> rw [hw] <;> omega

theorem codec_time64_microsecond_ok (amount : Int) (h1 : 0 ≤ amount)
    (h2 : amount < 86400000000) :
    (duckdb_value_to_json_value (.time64 .microsecond amount)).isOk = true :=
  codec_time64_ok_of_micros .microsecond amount h1 h2

theorem codec_time64_nanosecond_ok (amount : Int) (h1 : 0 ≤ amount)
    (h2 : amount < 86400000000000) :
    (duckdb_value_to_json_value (.time64 .nanosecond amount)).isOk = true := by
  have hm : timeUnitToMicros .nanosecond amount = amount / 1000 :=
    Int.tdiv_eq_ediv h1 (by norm_num)
  apply codec_time64_ok_of_micros
  · rw [hm]
    exact Int.ediv_nonneg h1 (by norm_num)
  · rw [hm]
    exact (Int.ediv_lt_iff_lt_mul (by norm_num)).mpr (by omega)

/-- C7: the value codec is total and fails only where a temporal
conversion is numerically out of range or a map key is not stringifiable:
every value all of whose temporal components are numerically in range and
whose map keys are of stringifiable shape converts without error (first
conjunct — covering in-range dates, times and timestamps, also when
nested inside lists, structs, maps and unions); each temporal variant
converts successfully on explicit in-range inputs at every stored time
unit (the next nine conjuncts); NaN and the non-finite floats convert to
JSON null rather than failing; and an out-of-range temporal component
yields a typed conversion error carrying a descriptive message (shown for
a `Time64` of 86400 seconds). -/
theorem codec_total_fails_only_temporal_or_map_key :
    (∀ v : DValue, riskFree v = true →
      (duckdb_value_to_json_value v).isOk = true) ∧
    (∀ amount : Int,
      (duckdb_value_to_json_value (.timestamp .nanosecond amount)).isOk = true) ∧
    (∀ amount : Int, -8334601228800 ≤ amount → amount ≤ 8210266876799 →
      (duckdb_value_to_json_value (.timestamp .second amount)).isOk = true) ∧
    (∀ amount : Int, -8334601228800000 ≤ amount → amount ≤ 8210266876799999 →
      (duckdb_value_to_json_value (.timestamp .millisecond amount)).isOk = true) ∧
    (∀ amount : Int, -8334601228800000000 ≤ amount → amount ≤ 8210266876799999999 →
      (duckdb_value_to_json_value (.timestamp .microsecond amount)).isOk = true) ∧
    (∀ days : Int, -96465287 ≤ days → days ≤ 95026933 →
      (duckdb_value_to_json_value (.date32 days)).isOk = true) ∧
    (∀ amount : Int, 0 ≤ amount → amount < 86400 →
      (duckdb_value_to_json_value (.time64 .second amount)).isOk = true) ∧
    (∀ amount : Int, 0 ≤ amount → amount < 86400000 →
      (duckdb_value_to_json_value (.time64 .millisecond amount)).isOk = true) ∧
    (∀ amount : Int, 0 ≤ amount → amount < 86400000000 →
      (duckdb_value_to_json_value (.time64 .microsecond amount)).isOk = true) ∧
    (∀ amount : Int, 0 ≤ amount → amount < 86400000000000 →
      (duckdb_value_to_json_value (.time64 .nanosecond amount)).isOk = true) ∧
    duckdb_value_to_json_value (.float .nan) = .ok .null ∧
    duckdb_value_to_json_value (.double .nan) = .ok .null ∧
    duckdb_value_to_json_value (.double .posInf) = .ok .null ∧
    duckdb_value_to_json_value (.double .negInf) = .ok .null ∧
    duckdb_value_to_json_value (.time64 .second 86400) =
      .error (.duckDBValueConversion "Failed to create NaiveTime") := by
  refine ⟨?_, fun amount => rfl, codec_timestamp_second_ok,
    codec_timestamp_millisecond_ok, codec_timestamp_microsecond_ok,
    codec_date32_ok, codec_time64_second_ok, codec_time64_millisecond_ok,
    codec_time64_microsecond_ok, codec_time64_nanosecond_ok,
    rfl, rfl, rfl, rfl, rfl⟩
  intro v h
  obtain ⟨j, hj, -⟩ := codec_ok_of_riskFree v h
  rw [hj]
  rfl

/-- C7 (witness for `codec_total_fails_only_temporal_or_map_key`): a
deeply nested value exercising lists, structs, maps, unions, enums,
blobs, intervals, floats, every integer width and in-range temporal
values (including a date-typed map key) converts without error, and so do
standalone in-range timestamps, dates and times. -/
theorem codec_total_witness :
    (duckdb_value_to_json_value (.list
      [.struct [("k", .map [(.text "key", .interval 1 2 3), (.date32 0, .boolean true)]),
                ("u", .union (.uTinyInt 255)),
                ("t", .timestamp .millisecond 1700000000000)],
       .array [.blob [0, 255], .enum "red", .float (.finite (1 / 2)),
               .double .nan, .hugeInt 170141183460469231731687303715884105727,
               .decimal "12.34", .boolean true, .null,
               .time64 .microsecond 43200000000, .timestamp .nanosecond 5],
       .map [(.uInt 4294967295, .text "v"), (.boolean false, .tinyInt (-7))],
       .uBigInt 18446744073709551615])).isOk = true ∧
    (duckdb_value_to_json_value (.timestamp .second 1700000000)).isOk = true ∧
    (duckdb_value_to_json_value (.date32 20000)).isOk = true ∧
    (duckdb_value_to_json_value (.time64 .second 86399)).isOk = true :=
  ⟨codec_total_fails_only_temporal_or_map_key.1 _ (by decide),
   codec_total_fails_only_temporal_or_map_key.2.2.1 1700000000 (by decide) (by decide),
   codec_total_fails_only_temporal_or_map_key.2.2.2.2.2.1 20000 (by decide) (by decide),
   codec_total_fails_only_temporal_or_map_key.2.2.2.2.2.2.1 86399 (by decide) (by decide)⟩

end Karna
